import Mathlib

/-!
Verification of the Miden VM instruction-lowering and execution-trace layer.

This file contains a shallow embedding, in Lean 4, of:
- the bitwise execution-trace generator (processor/src/bitwise/mod.rs),
- the u32 instruction lowering functions (assembly/src/assembler/instruction/u32_ops.rs),
- the verifier entry point (verifier/src/lib.rs),
together with theorems checking the specified behaviour of these components.

Machine integers are modelled as Nat with explicit reductions modulo powers of two
and modulo the field modulus where the source wraps values.
-/

-- ==========================================================================
-- Field elements
-- ==========================================================================

/-- Goldilocks prime modulus of the Miden base field: 2^64 - 2^32 + 1. -/
def MODULUS : Nat := 2 ^ 64 - 2 ^ 32 + 1

/-- Field elements are represented by their canonical integer value (below MODULUS
in well-formed states).  Felt is pervasive in the embedded code. -/
abbrev Felt := Nat

/-- Felt::new reduces a 64-bit integer into the field. -/
def Felt.new (v : Nat) : Felt := v % MODULUS

theorem MODULUS_eq : MODULUS = 18446744069414584321 := by decide

theorem Felt.new_eq_of_lt {v : Nat} (h : v < MODULUS) : Felt.new v = v :=
  Nat.mod_eq_of_lt h

theorem two_pow_32_lt_MODULUS : 2 ^ 32 < MODULUS := by decide

-- ==========================================================================
-- Bitwise helper (processor/src/bitwise/mod.rs)
-- ==========================================================================

/-- Number of columns needed to record an execution trace of the bitwise helper. -/
def TRACE_WIDTH : Nat := 11

/-- Modelled from the spec: execution errors abort the whole run.  The concrete
ExecutionError enum of the processor is outside the included sources; only its
name is referenced by the bitwise helper, which never constructs a value of it. -/
inductive ExecutionError where
  | fatal : ExecutionError
deriving DecidableEq

/-- Bitwise operation helper for the VM: computes AND, OR and XOR on 32-bit values
while building an 11-column execution trace of these operations. -/
structure Bitwise where
  trace : Fin 11 → List Felt

/-- Returns a new Bitwise initialized with an empty trace. -/
def Bitwise.new : Bitwise := ⟨fun _ => []⟩

/-- Returns length of execution trace required to describe bitwise operations
executed on the VM. -/
def Bitwise.trace_len (s : Bitwise) : Nat := (s.trace 0).length

/-- Push a value at the end of one column (Vec::push on trace[i]). -/
def Bitwise.pushCol (s : Bitwise) (i : Fin 11) (v : Felt) : Bitwise :=
  ⟨Function.update s.trace i (s.trace i ++ [v])⟩

/-- Appends a new row to the trace table and populates the first 10 columns:
column 0 gets the current value of a, column 1 the current value of b,
columns 2 to 5 the 4 least-significant bits of a, columns 6 to 9 those of b. -/
def Bitwise.add_trace_row (s : Bitwise) (a b : Nat) : Bitwise :=
  ((((((((((s.pushCol 0 (Felt.new a)).pushCol 1 (Felt.new b)).pushCol 2
    (Felt.new (a &&& 1))).pushCol 3 (Felt.new ((a >>> 1) &&& 1))).pushCol 4
    (Felt.new ((a >>> 2) &&& 1))).pushCol 5 (Felt.new ((a >>> 3) &&& 1))).pushCol 6
    (Felt.new (b &&& 1))).pushCol 7 (Felt.new ((b >>> 1) &&& 1))).pushCol 8
    (Felt.new ((b >>> 2) &&& 1))).pushCol 9 (Felt.new ((b >>> 3) &&& 1)))

/-- The bit offsets of the generator loop: (0..32).step_by(4).rev(). -/
def bitOffsets : List Nat := [28, 24, 20, 16, 12, 8, 4, 0]

/-- Computes a bitwise AND of a and b and returns the result, appending 8 rows to
the internal execution trace table, one 4-bit limb per row starting with the most
significant limb.  As in the source, the result of the computation is undefined
(here: truncated) when the inputs are not 32-bit values. -/
def Bitwise.u32and (s : Bitwise) (a b : Felt) : Except ExecutionError (Felt × Bitwise) :=
  let p := bitOffsets.foldl (fun (acc : Nat × Bitwise) bit_offset =>
    let a' := a >>> bit_offset
    let b' := b >>> bit_offset
    let st := acc.2.add_trace_row a' b'
    let result := (acc.1 <<< 4) ||| ((a' &&& b') &&& 0xF)
    (result, st.pushCol 10 (Felt.new result))) (0, s)
  Except.ok (Felt.new p.1, p.2)

/-- Computes a bitwise OR of a and b and returns the result, appending 8 rows to
the internal execution trace table. -/
def Bitwise.u32or (s : Bitwise) (a b : Felt) : Except ExecutionError (Felt × Bitwise) :=
  let p := bitOffsets.foldl (fun (acc : Nat × Bitwise) bit_offset =>
    let a' := a >>> bit_offset
    let b' := b >>> bit_offset
    let st := acc.2.add_trace_row a' b'
    let result := (acc.1 <<< 4) ||| ((a' ||| b') &&& 0xF)
    (result, st.pushCol 10 (Felt.new result))) (0, s)
  Except.ok (Felt.new p.1, p.2)

/-- Computes a bitwise XOR of a and b and returns the result, appending 8 rows to
the internal execution trace table. -/
def Bitwise.u32xor (s : Bitwise) (a b : Felt) : Except ExecutionError (Felt × Bitwise) :=
  let p := bitOffsets.foldl (fun (acc : Nat × Bitwise) bit_offset =>
    let a' := a >>> bit_offset
    let b' := b >>> bit_offset
    let st := acc.2.add_trace_row a' b'
    let result := (acc.1 <<< 4) ||| ((a' ^^^ b') &&& 0xF)
    (result, st.pushCol 10 (Felt.new result))) (0, s)
  Except.ok (Felt.new p.1, p.2)

/-- Modelled from the spec: the externally supplied trace region handed to
fill_trace.  Only its dimensions are relevant to the dimension contract; the
TraceFragment type itself lives outside the included sources. -/
structure TraceFragment where
  width : Nat
  len : Nat

/-- Fills the provided trace fragment with trace data from this bitwise helper
instance.  The dimension assertions of the source are modelled as an unconditional
contract check: on mismatch the copy does not proceed (result none); on matching
dimensions all 11 internal columns are copied out, consuming the helper. -/
def Bitwise.fill_trace (s : Bitwise) (trace : TraceFragment) : Option (List (List Felt)) :=
  if s.trace_len = trace.len ∧ TRACE_WIDTH = trace.width then
    some (List.ofFn fun i : Fin 11 => s.trace i)
  else
    none

-- ==========================================================================
-- Bit-manipulation helper lemmas
-- ==========================================================================

theorem nib_step (z o : Nat) :
    ((z >>> (o + 4)) <<< 4) ||| ((z >>> o) &&& 15) = z >>> o := by
  rw [Nat.shiftRight_add]
  generalize z >>> o = w
  apply Nat.eq_of_testBit_eq
  intro i
  rcases Nat.lt_or_ge i 4 with h | h
  · simp only [Nat.testBit_lor, Nat.testBit_shiftLeft, Nat.testBit_and]
    have h15 : Nat.testBit 15 i = true := by
      interval_cases i <;> decide
    simp [Nat.not_le_of_lt h, h15]
  · simp only [Nat.testBit_lor, Nat.testBit_shiftLeft, Nat.testBit_and,
      Nat.testBit_shiftRight]
    have h15 : Nat.testBit 15 i = false := by
      have : (15 : Nat) < 2 ^ i := by
        calc (15 : Nat) < 2 ^ 4 := by decide
        _ ≤ 2 ^ i := Nat.pow_le_pow_right (by decide) h
      exact Nat.testBit_lt_two_pow this
    have h4 : 4 + (i - 4) = i := by omega
    simp [Nat.le_of_lt, h, h15, h4]

theorem nib_first {z : Nat} (h : z < 2 ^ 32) :
    ((0 : Nat) <<< 4) ||| ((z >>> 28) &&& 15) = z >>> 28 := by
  have hlt : z >>> 28 < 2 ^ 4 := by
    rw [Nat.shiftRight_eq_div_pow]
    apply Nat.div_lt_of_lt_mul
    calc z < 2 ^ 32 := h
    _ = 2 ^ 28 * 2 ^ 4 := by norm_num
  have : (z >>> 28) &&& 15 = z >>> 28 := by
    have := Nat.and_pow_two_sub_one_eq_mod (z >>> 28) 4
    norm_num at this
    rw [this, Nat.mod_eq_of_lt (by norm_num at hlt ⊢; omega)]
  rw [this]
  simp

/-- The streaming nibble accumulation of z, as performed by the result column of
the bitwise trace generator. -/
def nibAcc (z : Nat) : Nat :=
  bitOffsets.foldl (fun acc o => (acc <<< 4) ||| ((z >>> o) &&& 15)) 0

theorem nibAcc_eq_self {z : Nat} (h : z < 2 ^ 32) : nibAcc z = z := by
  unfold nibAcc bitOffsets
  simp only [List.foldl]
  rw [nib_first h]
  have s24 := nib_step z 24; norm_num at s24
  have s20 := nib_step z 20; norm_num at s20
  have s16 := nib_step z 16; norm_num at s16
  have s12 := nib_step z 12; norm_num at s12
  have s8 := nib_step z 8; norm_num at s8
  have s4 := nib_step z 4; norm_num at s4
  have s0 := nib_step z 0; norm_num at s0
  rw [s24, s20, s16, s12, s8, s4, Nat.shiftRight_zero, s0]

theorem nib_congr_mod {z o : Nat} (h : o + 4 ≤ 32) :
    ((z % 2 ^ 32) >>> o) &&& 15 = (z >>> o) &&& 15 := by
  apply Nat.eq_of_testBit_eq
  intro i
  simp only [Nat.testBit_and, Nat.testBit_shiftRight, Nat.testBit_mod_two_pow]
  rcases Nat.lt_or_ge i 4 with hi | hi
  · have : o + i < 32 := by omega
    simp [this]
  · have h15 : Nat.testBit 15 i = false := by
      have : (15 : Nat) < 2 ^ i := by
        calc (15 : Nat) < 2 ^ 4 := by decide
        _ ≤ 2 ^ i := Nat.pow_le_pow_right (by decide) hi
      exact Nat.testBit_lt_two_pow this
    simp [h15]

theorem nibAcc_mod (z : Nat) : nibAcc z = nibAcc (z % 2 ^ 32) := by
  unfold nibAcc bitOffsets
  simp only [List.foldl]
  rw [nib_congr_mod (by norm_num : 28 + 4 ≤ 32), nib_congr_mod (by norm_num : 24 + 4 ≤ 32),
    nib_congr_mod (by norm_num : 20 + 4 ≤ 32), nib_congr_mod (by norm_num : 16 + 4 ≤ 32),
    nib_congr_mod (by norm_num : 12 + 4 ≤ 32), nib_congr_mod (by norm_num : 8 + 4 ≤ 32),
    nib_congr_mod (by norm_num : 4 + 4 ≤ 32), nib_congr_mod (by norm_num : 0 + 4 ≤ 32)]

theorem nibAcc_eq_mod (z : Nat) : nibAcc z = z % 2 ^ 32 := by
  rw [nibAcc_mod]
  exact nibAcc_eq_self (Nat.mod_lt _ (by norm_num))

theorem shiftRight_and_comm (a b o : Nat) : (a >>> o) &&& (b >>> o) = (a &&& b) >>> o := by
  apply Nat.eq_of_testBit_eq
  intro i
  simp [Nat.testBit_and, Nat.testBit_shiftRight]

theorem shiftRight_or_comm (a b o : Nat) : (a >>> o) ||| (b >>> o) = (a ||| b) >>> o := by
  apply Nat.eq_of_testBit_eq
  intro i
  simp [Nat.testBit_or, Nat.testBit_shiftRight]

theorem shiftRight_xor_comm (a b o : Nat) : (a >>> o) ^^^ (b >>> o) = (a ^^^ b) >>> o := by
  apply Nat.eq_of_testBit_eq
  intro i
  simp [Nat.testBit_xor, Nat.testBit_shiftRight]

-- ==========================================================================
-- Structure of the bitwise generator loop
-- ==========================================================================

/-- The common loop of u32and, u32or and u32xor, abstracted over the per-nibble
combining function; each of the three generator functions unfolds to this by
definitional equality. -/
def bwfold (f : Nat → Nat → Nat) (a b : Nat) (s : Bitwise) : Nat × Bitwise :=
  bitOffsets.foldl (fun (acc : Nat × Bitwise) bit_offset =>
    let a' := a >>> bit_offset
    let b' := b >>> bit_offset
    let st := acc.2.add_trace_row a' b'
    let result := (acc.1 <<< 4) ||| ((f a' b') &&& 0xF)
    (result, st.pushCol 10 (Felt.new result))) (0, s)

theorem u32and_unfold (s : Bitwise) (a b : Felt) :
    s.u32and a b = Except.ok (Felt.new (bwfold (· &&& ·) a b s).1, (bwfold (· &&& ·) a b s).2) :=
  rfl

theorem u32or_unfold (s : Bitwise) (a b : Felt) :
    s.u32or a b = Except.ok (Felt.new (bwfold (· ||| ·) a b s).1, (bwfold (· ||| ·) a b s).2) :=
  rfl

theorem u32xor_unfold (s : Bitwise) (a b : Felt) :
    s.u32xor a b = Except.ok (Felt.new (bwfold (· ^^^ ·) a b s).1, (bwfold (· ^^^ ·) a b s).2) :=
  rfl

theorem bwfold_fst (f : Nat → Nat → Nat) (a b : Nat) (s : Bitwise) :
    (bwfold f a b s).1 =
      bitOffsets.foldl (fun acc o => (acc <<< 4) ||| ((f (a >>> o) (b >>> o)) &&& 0xF)) 0 := by
  have h : ∀ (L : List Nat) (acc : Nat × Bitwise),
      (L.foldl (fun (acc : Nat × Bitwise) bit_offset =>
        let a' := a >>> bit_offset
        let b' := b >>> bit_offset
        let st := acc.2.add_trace_row a' b'
        let result := (acc.1 <<< 4) ||| ((f a' b') &&& 0xF)
        (result, st.pushCol 10 (Felt.new result))) acc).1 =
      L.foldl (fun acc o => (acc <<< 4) ||| ((f (a >>> o) (b >>> o)) &&& 0xF)) acc.1 := by
    intro L
    induction L with
    | nil => intro acc; rfl
    | cons o L ih => intro acc; simpa using ih _
  exact h bitOffsets (0, s)

set_option maxRecDepth 4000 in
theorem step_trace_len (st : Bitwise) (x y : Nat) (v : Felt) (j : Fin 11) :
    (((st.add_trace_row x y).pushCol 10 v).trace j).length = (st.trace j).length + 1 := by
  fin_cases j <;>
    simp [Bitwise.add_trace_row, Bitwise.pushCol, Function.update_apply]

set_option maxRecDepth 8000 in
theorem bwfold_trace_len (f : Nat → Nat → Nat) (a b : Nat) (s : Bitwise) (j : Fin 11) :
    ((bwfold f a b s).2.trace j).length = (s.trace j).length + 8 := by
  have h : ∀ (L : List Nat) (acc : Nat × Bitwise) (j : Fin 11),
      ((L.foldl (fun (acc : Nat × Bitwise) bit_offset =>
        let a' := a >>> bit_offset
        let b' := b >>> bit_offset
        let st := acc.2.add_trace_row a' b'
        let result := (acc.1 <<< 4) ||| ((f a' b') &&& 0xF)
        (result, st.pushCol 10 (Felt.new result))) acc).2.trace j).length =
      (acc.2.trace j).length + L.length := by
    intro L
    induction L with
    | nil => intro acc j; rfl
    | cons o L ih =>
      intro acc j
      simp only [List.foldl, List.length_cons]
      rw [ih]
      simp only [step_trace_len]
      omega
  exact h bitOffsets (0, s) j

theorem bwfold_and_fst (a b : Nat) (s : Bitwise) :
    (bwfold (· &&& ·) a b s).1 = (a &&& b) % 2 ^ 32 := by
  rw [bwfold_fst]
  simp only [shiftRight_and_comm]
  exact nibAcc_eq_mod (a &&& b)

theorem bwfold_or_fst (a b : Nat) (s : Bitwise) :
    (bwfold (· ||| ·) a b s).1 = (a ||| b) % 2 ^ 32 := by
  rw [bwfold_fst]
  simp only [shiftRight_or_comm]
  exact nibAcc_eq_mod (a ||| b)

theorem bwfold_xor_fst (a b : Nat) (s : Bitwise) :
    (bwfold (· ^^^ ·) a b s).1 = (a ^^^ b) % 2 ^ 32 := by
  rw [bwfold_fst]
  simp only [shiftRight_xor_comm]
  exact nibAcc_eq_mod (a ^^^ b)

theorem u32and_eq (s : Bitwise) (a b : Felt) :
    s.u32and a b = Except.ok ((a &&& b) % 2 ^ 32, (bwfold (· &&& ·) a b s).2) := by
  rw [u32and_unfold, bwfold_and_fst,
    Felt.new_eq_of_lt (lt_trans (Nat.mod_lt _ (by norm_num)) two_pow_32_lt_MODULUS)]

theorem u32or_eq (s : Bitwise) (a b : Felt) :
    s.u32or a b = Except.ok ((a ||| b) % 2 ^ 32, (bwfold (· ||| ·) a b s).2) := by
  rw [u32or_unfold, bwfold_or_fst,
    Felt.new_eq_of_lt (lt_trans (Nat.mod_lt _ (by norm_num)) two_pow_32_lt_MODULUS)]

theorem u32xor_eq (s : Bitwise) (a b : Felt) :
    s.u32xor a b = Except.ok ((a ^^^ b) % 2 ^ 32, (bwfold (· ^^^ ·) a b s).2) := by
  rw [u32xor_unfold, bwfold_xor_fst,
    Felt.new_eq_of_lt (lt_trans (Nat.mod_lt _ (by norm_num)) two_pow_32_lt_MODULUS)]

-- ==========================================================================
-- Column-length invariant
-- ==========================================================================

/-- All 11 columns of the bitwise trace table have identical length. -/
def colsEqualLen (s : Bitwise) : Prop :=
  ∀ j : Fin 11, (s.trace j).length = s.trace_len

theorem growth_preserves_eqLen {s s' : Bitwise}
    (h : ∀ j : Fin 11, (s'.trace j).length = (s.trace j).length + 8)
    (he : colsEqualLen s) : colsEqualLen s' := by
  intro j
  unfold Bitwise.trace_len
  rw [h j, h 0, he j]
  rfl

-- ==========================================================================
-- Claim C1
-- ==========================================================================

/-- Claim C1: for every pair of 32-bit operands a and b given as field elements,
u32and, u32or and u32xor of the bitwise generator return the field element
encoding a AND b, a OR b and a XOR b respectively, computed by the 8-step
most-significant-first 4-bit-limb accumulation embedded in their definitions. -/
theorem claim_C1 (s : Bitwise) (a b : Felt) (ha : a < 2 ^ 32) (hb : b < 2 ^ 32) :
    (∃ s1, s.u32and a b = Except.ok (a &&& b, s1)) ∧
    (∃ s2, s.u32or a b = Except.ok (a ||| b, s2)) ∧
    (∃ s3, s.u32xor a b = Except.ok (a ^^^ b, s3)) := by
  refine ⟨⟨(bwfold (· &&& ·) a b s).2, ?_⟩, ⟨(bwfold (· ||| ·) a b s).2, ?_⟩,
    ⟨(bwfold (· ^^^ ·) a b s).2, ?_⟩⟩
  · rw [u32and_eq, Nat.mod_eq_of_lt (Nat.and_lt_two_pow a hb)]
  · rw [u32or_eq, Nat.mod_eq_of_lt (Nat.or_lt_two_pow ha hb)]
  · rw [u32xor_eq, Nat.mod_eq_of_lt (Nat.xor_lt_two_pow ha hb)]

theorem claim_C1_witness :
    (4042302885 : Nat) < 2 ^ 32 ∧ (267456511 : Nat) < 2 ^ 32 ∧
    ((∃ s1, Bitwise.new.u32and 4042302885 267456511 =
        Except.ok (4042302885 &&& 267456511, s1)) ∧
     (∃ s2, Bitwise.new.u32or 4042302885 267456511 =
        Except.ok (4042302885 ||| 267456511, s2)) ∧
     (∃ s3, Bitwise.new.u32xor 4042302885 267456511 =
        Except.ok (4042302885 ^^^ 267456511, s3))) :=
  ⟨by decide, by decide,
    claim_C1 Bitwise.new 4042302885 267456511 (by decide) (by decide)⟩

-- ==========================================================================
-- Claim C3
-- ==========================================================================

/-- Claim C3: every invocation of u32and, u32or or u32xor appends exactly 8 rows
to each of the 11 columns of the internal trace table, and the equal-length
invariant of the 11 columns is preserved by every invocation. -/
theorem claim_C3 (s : Bitwise) (a b : Felt) :
    (∀ v s', s.u32and a b = Except.ok (v, s') →
      (∀ j : Fin 11, (s'.trace j).length = (s.trace j).length + 8) ∧
      (colsEqualLen s → colsEqualLen s')) ∧
    (∀ v s', s.u32or a b = Except.ok (v, s') →
      (∀ j : Fin 11, (s'.trace j).length = (s.trace j).length + 8) ∧
      (colsEqualLen s → colsEqualLen s')) ∧
    (∀ v s', s.u32xor a b = Except.ok (v, s') →
      (∀ j : Fin 11, (s'.trace j).length = (s.trace j).length + 8) ∧
      (colsEqualLen s → colsEqualLen s')) := by
  refine ⟨?_, ?_, ?_⟩ <;> intro v s' h
  · rw [u32and_unfold] at h
    have hs : s' = (bwfold (· &&& ·) a b s).2 := by
      cases h
      rfl
    subst hs
    refine ⟨fun j => bwfold_trace_len _ a b s j, growth_preserves_eqLen ?_⟩
    exact fun j => bwfold_trace_len _ a b s j
  · rw [u32or_unfold] at h
    have hs : s' = (bwfold (· ||| ·) a b s).2 := by
      cases h
      rfl
    subst hs
    refine ⟨fun j => bwfold_trace_len _ a b s j, growth_preserves_eqLen ?_⟩
    exact fun j => bwfold_trace_len _ a b s j
  · rw [u32xor_unfold] at h
    have hs : s' = (bwfold (· ^^^ ·) a b s).2 := by
      cases h
      rfl
    subst hs
    refine ⟨fun j => bwfold_trace_len _ a b s j, growth_preserves_eqLen ?_⟩
    exact fun j => bwfold_trace_len _ a b s j

theorem claim_C3_witness :
    (∀ j : Fin 11, (((bwfold (· &&& ·) 5 3 Bitwise.new).2).trace j).length =
      ((Bitwise.new).trace j).length + 8) ∧
    (colsEqualLen Bitwise.new → colsEqualLen (bwfold (· &&& ·) 5 3 Bitwise.new).2) :=
  (claim_C3 Bitwise.new 5 3).1 ((5 &&& 3) % 2 ^ 32) _ (u32and_eq Bitwise.new 5 3)

-- ==========================================================================
-- Claim C4
-- ==========================================================================

/-- Claim C4: calling fill_trace with a fragment whose width differs from 11 or
whose length differs from the accumulated row count fails the contract check and
no copy is produced; on matching dimensions the call copies every internal
column into the output, column by column. -/
theorem claim_C4 (s : Bitwise) (frag : TraceFragment) :
    ((frag.width ≠ TRACE_WIDTH ∨ frag.len ≠ s.trace_len) → s.fill_trace frag = none) ∧
    (frag.width = TRACE_WIDTH → frag.len = s.trace_len →
      s.fill_trace frag = some (List.ofFn fun i : Fin 11 => s.trace i)) := by
  constructor
  · intro h
    unfold Bitwise.fill_trace
    rw [if_neg]
    tauto
  · intro h1 h2
    unfold Bitwise.fill_trace
    rw [if_pos ⟨h2.symm, h1.symm⟩]

theorem claim_C4_witness :
    (Bitwise.new.fill_trace ⟨11, 0⟩ =
      some (List.ofFn fun i : Fin 11 => Bitwise.new.trace i)) ∧
    Bitwise.new.fill_trace ⟨12, 0⟩ = none :=
  ⟨(claim_C4 Bitwise.new ⟨11, 0⟩).2 (by decide) (by decide),
   (claim_C4 Bitwise.new ⟨12, 0⟩).1 (by decide)⟩

-- ==========================================================================
-- Claim C10
-- ==========================================================================

/-- Claim C10: u32and, u32or and u32xor never return an error: for every pair of
input field elements, including values exceeding 32 bits, they return ok, so the
error branch of their result type is unreachable. -/
theorem claim_C10 (s : Bitwise) (a b : Felt) :
    (∃ r, s.u32and a b = Except.ok r) ∧
    (∃ r, s.u32or a b = Except.ok r) ∧
    (∃ r, s.u32xor a b = Except.ok r) :=
  ⟨⟨_, u32and_unfold s a b⟩, ⟨_, u32or_unfold s a b⟩, ⟨_, u32xor_unfold s a b⟩⟩

-- ==========================================================================
-- Primitive operations and span builder (assembly/src/assembler/instruction/u32_ops.rs)
-- ==========================================================================

/-- Modelled from the spec: the closed vocabulary of primitive stack-machine
operations used by the embedded lowering functions.  The Operation enum itself is
declared in the vm-core crate, outside the included sources; the constructors
below are the ones the included lowering code emits.  Pow2 stands for the
power-of-two helper sequence append_pow2_op, which replaces the top-of-stack
exponent by two raised to that exponent. -/
inductive Operation where
  | Noop : Operation
  | Push : Felt → Operation
  | Drop : Operation
  | Swap : Operation
  | Dup0 : Operation
  | Dup1 : Operation
  | Dup2 : Operation
  | Dup3 : Operation
  | MovUp3 : Operation
  | Add : Operation
  | Neg : Operation
  | Eq : Operation
  | Eqz : Operation
  | Not : Operation
  | And : Operation
  | Assert : Felt → Operation
  | CSwap : Operation
  | AdvPop : Operation
  | U32split : Operation
  | U32assert2 : Felt → Operation
  | U32add : Operation
  | U32sub : Operation
  | U32mul : Operation
  | U32div : Operation
  | U32and : Operation
  | Pow2 : Operation
deriving DecidableEq, Repr

/-- Compile-time lowering errors of the embedded functions. -/
inductive AssemblyError where
  | division_by_zero : AssemblyError
  | param_out_of_bounds : Nat → Nat → Nat → AssemblyError
deriving DecidableEq, Repr

/-- Modelled from the spec: maximum allowed shift amount immediate (0..=31). -/
def MAX_U32_SHIFT_VALUE : Nat := 31

/-- Modelled from the spec: maximum allowed rotate amount immediate (0 allowed,
else 1..=31). -/
def MAX_U32_ROTATE_VALUE : Nat := 31

/-- Modelled from the spec: checks an immediate against an inclusive range,
failing compilation when it lies outside.  The helper lives outside the included
sources. -/
def validate_param (imm lo hi : Nat) : Option AssemblyError :=
  if lo ≤ imm ∧ imm ≤ hi then none else some (AssemblyError.param_out_of_bounds imm lo hi)

/-- Modelled from the spec: emit the immediate push.  The helper lives outside
the included sources; per the spec it emits one push-constant operation. -/
def push_u32_value (span : List Operation) (imm : Nat) : List Operation :=
  span ++ [Operation.Push (Felt.new imm)]

/-- This enum determines the mode of operation passed to the parsing function. -/
inductive U32OpMode where
  | Wrapping
  | Overflowing
deriving DecidableEq

-- ==========================================================================
-- Arithmetic lowering
-- ==========================================================================

/-- Handles U32ADD, U32SUB and U32MUL operations in wrapping and overflowing
modes, including handling of immediate parameters: push the immediate if
present, emit the base operation, and in wrapping mode drop the high 32 bits. -/
def handle_arithmetic_operation (span : List Operation) (op : Operation)
    (op_mode : U32OpMode) (imm : Option Nat) : List Operation :=
  let s := match imm with
    | some i => push_u32_value span i
    | none => span
  let s := s ++ [op]
  match op_mode with
  | U32OpMode.Wrapping => s ++ [Operation.Drop]
  | U32OpMode.Overflowing => s

/-- Translates u32add assembly instructions to VM operations. -/
def u32add (span : List Operation) (op_mode : U32OpMode) (imm : Option Nat) :
    List Operation :=
  handle_arithmetic_operation span Operation.U32add op_mode imm

/-- Translates u32sub assembly instructions to VM operations. -/
def u32sub (span : List Operation) (op_mode : U32OpMode) (imm : Option Nat) :
    List Operation :=
  handle_arithmetic_operation span Operation.U32sub op_mode imm

/-- Translates u32mul assembly instructions to VM operations. -/
def u32mul (span : List Operation) (op_mode : U32OpMode) (imm : Option Nat) :
    List Operation :=
  handle_arithmetic_operation span Operation.U32mul op_mode imm

-- ==========================================================================
-- Division lowering
-- ==========================================================================

/-- Handles common parts of u32div, u32mod and u32divmod: a zero immediate fails
compilation with a division-by-zero error before any operation is emitted. -/
def handle_division (span : List Operation) (imm : Option Nat) :
    List Operation × Option AssemblyError :=
  match imm with
  | some i =>
    if i = 0 then (span, some AssemblyError.division_by_zero)
    else (push_u32_value span i ++ [Operation.U32div], none)
  | none => (span ++ [Operation.U32div], none)

/-- Translates u32div assembly instructions to VM operations. -/
def u32div (span : List Operation) (imm : Option Nat) :
    List Operation × Option AssemblyError :=
  match handle_division span imm with
  | (s, some e) => (s, some e)
  | (s, none) => (s ++ [Operation.Drop], none)

/-- Translates u32mod assembly instructions to VM operations. -/
def u32mod (span : List Operation) (imm : Option Nat) :
    List Operation × Option AssemblyError :=
  match handle_division span imm with
  | (s, some e) => (s, some e)
  | (s, none) => (s ++ [Operation.Swap, Operation.Drop], none)

/-- Translates u32divmod assembly instructions to VM operations. -/
def u32divmod (span : List Operation) (imm : Option Nat) :
    List Operation × Option AssemblyError :=
  handle_division span imm

-- ==========================================================================
-- Shift and rotation lowering
-- ==========================================================================

/-- Mutate the first two elements of the stack from [b, a, ..] into [2^b, a, ..]
with b either a provided immediate value, or an element already on the stack. -/
def prepare_bitwise (maxValue : Nat) (span : List Operation) (imm : Option Nat) :
    List Operation × Option AssemblyError :=
  match imm with
  | some i =>
    if i = 0 then (span ++ [Operation.Noop], none)
    else
      match validate_param i 1 maxValue with
      | some e => (span, some e)
      | none => (span ++ [Operation.Push (Felt.new (1 <<< i))], none)
  | none => (span ++ [Operation.Pow2], none)

/-- Translates u32shl assembly instructions to VM operations: put a power of two
on the stack, multiply and split. -/
def u32shl (span : List Operation) (imm : Option Nat) :
    List Operation × Option AssemblyError :=
  match prepare_bitwise MAX_U32_SHIFT_VALUE span imm with
  | (s, some e) => (s, some e)
  | (s, none) =>
    if imm ≠ some 0 then (s ++ [Operation.U32mul, Operation.Drop], none) else (s, none)

/-- Translates u32shr assembly instructions to VM operations: put a power of two
on the stack, divide and keep the quotient. -/
def u32shr (span : List Operation) (imm : Option Nat) :
    List Operation × Option AssemblyError :=
  match prepare_bitwise MAX_U32_SHIFT_VALUE span imm with
  | (s, some e) => (s, some e)
  | (s, none) =>
    if imm ≠ some 0 then (s ++ [Operation.U32div, Operation.Drop], none) else (s, none)

/-- Translates u32rotl assembly instructions to VM operations: put a power of two
on the stack, multiply, and add the overflow limb back to the shifted limb. -/
def u32rotl (span : List Operation) (imm : Option Nat) :
    List Operation × Option AssemblyError :=
  match prepare_bitwise MAX_U32_ROTATE_VALUE span imm with
  | (s, some e) => (s, some e)
  | (s, none) =>
    if imm ≠ some 0 then (s ++ [Operation.U32mul, Operation.Add], none) else (s, none)

/-- Translates u32rotr assembly instructions to VM operations: multiply the value
by 2^(32-b) and add the overflow limb back to the shifted limb. -/
def u32rotr (span : List Operation) (imm : Option Nat) :
    List Operation × Option AssemblyError :=
  match imm with
  | some i =>
    if i = 0 then (span ++ [Operation.Noop], none)
    else
      match validate_param i 1 MAX_U32_ROTATE_VALUE with
      | some e => (span, some e)
      | none =>
        (span ++ [Operation.Push (Felt.new (1 <<< (32 - i))), Operation.U32mul,
          Operation.Add], none)
  | none =>
    (span ++ [Operation.Push 32, Operation.Swap, Operation.U32sub, Operation.Drop,
      Operation.Pow2, Operation.U32mul, Operation.Add], none)

-- ==========================================================================
-- Claim C5
-- ==========================================================================

/-- Claim C5: lowering a shift or rotate instruction with an out-of-range
immediate, or a division instruction with a zero immediate, fails at compile
time with an error while appending no operation to the span; lowering division
with any nonzero immediate never fails. -/
theorem claim_C5 (span : List Operation) (imm : Nat) :
    (32 ≤ imm →
      u32shl span (some imm) = (span, some (AssemblyError.param_out_of_bounds imm 1 31)) ∧
      u32shr span (some imm) = (span, some (AssemblyError.param_out_of_bounds imm 1 31)) ∧
      u32rotl span (some imm) = (span, some (AssemblyError.param_out_of_bounds imm 1 31)) ∧
      u32rotr span (some imm) = (span, some (AssemblyError.param_out_of_bounds imm 1 31))) ∧
    (u32div span (some 0) = (span, some AssemblyError.division_by_zero) ∧
     u32mod span (some 0) = (span, some AssemblyError.division_by_zero) ∧
     u32divmod span (some 0) = (span, some AssemblyError.division_by_zero)) ∧
    (imm ≠ 0 →
      (u32div span (some imm)).2 = none ∧
      (u32mod span (some imm)).2 = none ∧
      (u32divmod span (some imm)).2 = none) := by
  refine ⟨?_, ?_, ?_⟩
  · intro h
    have h0 : imm ≠ 0 := by omega
    have hv : validate_param imm 1 31 = some (AssemblyError.param_out_of_bounds imm 1 31) := by
      unfold validate_param
      rw [if_neg]
      omega
    refine ⟨?_, ?_, ?_, ?_⟩
    · simp [u32shl, prepare_bitwise, MAX_U32_SHIFT_VALUE, hv, h0]
    · simp [u32shr, prepare_bitwise, MAX_U32_SHIFT_VALUE, hv, h0]
    · simp [u32rotl, prepare_bitwise, MAX_U32_ROTATE_VALUE, hv, h0]
    · simp [u32rotr, MAX_U32_ROTATE_VALUE, hv, h0]
  · refine ⟨?_, ?_, ?_⟩ <;> simp [u32div, u32mod, u32divmod, handle_division]
  · intro h0
    refine ⟨?_, ?_, ?_⟩ <;>
      simp [u32div, u32mod, u32divmod, handle_division, h0]

theorem claim_C5_witness :
    ((32 : Nat) ≤ 33 ∧
      (u32shl [] (some 33) = ([], some (AssemblyError.param_out_of_bounds 33 1 31)) ∧
       u32shr [] (some 33) = ([], some (AssemblyError.param_out_of_bounds 33 1 31)) ∧
       u32rotl [] (some 33) = ([], some (AssemblyError.param_out_of_bounds 33 1 31)) ∧
       u32rotr [] (some 33) = ([], some (AssemblyError.param_out_of_bounds 33 1 31)))) ∧
    ((7 : Nat) ≠ 0 ∧
      ((u32div [] (some 7)).2 = none ∧
       (u32mod [] (some 7)).2 = none ∧
       (u32divmod [] (some 7)).2 = none)) :=
  ⟨⟨by decide, (claim_C5 [] 33).1 (by decide)⟩,
   ⟨by decide, (claim_C5 [] 7).2.2 (by decide)⟩⟩

-- ==========================================================================
-- Claim C8
-- ==========================================================================

/-- Claim C8: for u32add, u32sub and u32mul the sequence emitted in wrapping mode
equals the sequence emitted in overflowing mode followed by exactly one drop;
u32wrapping_add with immediate 5 compiles to push-constant 5, U32add, Drop
(3 primitives) and u32overflowing_add with no immediate compiles to U32add only. -/
theorem claim_C8 (span : List Operation) (imm : Option Nat) :
    (u32add span U32OpMode.Wrapping imm =
      u32add span U32OpMode.Overflowing imm ++ [Operation.Drop]) ∧
    (u32sub span U32OpMode.Wrapping imm =
      u32sub span U32OpMode.Overflowing imm ++ [Operation.Drop]) ∧
    (u32mul span U32OpMode.Wrapping imm =
      u32mul span U32OpMode.Overflowing imm ++ [Operation.Drop]) ∧
    u32add [] U32OpMode.Wrapping (some 5) =
      [Operation.Push 5, Operation.U32add, Operation.Drop] ∧
    u32add [] U32OpMode.Overflowing none = [Operation.U32add] := by
  have h5 : Felt.new 5 = 5 := by decide
  refine ⟨?_, ?_, ?_, ?_, ?_⟩ <;>
    simp [u32add, u32sub, u32mul, handle_arithmetic_operation, push_u32_value, h5]

-- ==========================================================================
-- Operational semantics of primitive operations
-- ==========================================================================

/-- Modelled from the spec: the VM state observed by the embedded operation
sequences, consisting of the operand stack and the advice stack.  The processor
that executes primitive operations is outside the included sources; each
operation below implements the statically known stack effect the spec assigns
to it (top of stack at the head of the list). -/
structure VmState where
  stack : List Felt
  advice : List Felt
deriving DecidableEq, Repr

/-- Modelled from the spec: one execution step.  Operations yield none on fatal
conditions (stack underflow, failed assertions, non-binary inputs to boolean
operations, division by zero); u32 operations split their double-word results
into a low 32-bit limb with the high or carry limb on top. -/
def execOp (op : Operation) (s : VmState) : Option VmState :=
  match op, s.stack with
  | Operation.Noop, st => some ⟨st, s.advice⟩
  | Operation.Push c, st => some ⟨c :: st, s.advice⟩
  | Operation.Drop, _ :: st => some ⟨st, s.advice⟩
  | Operation.Swap, a :: b :: st => some ⟨b :: a :: st, s.advice⟩
  | Operation.Dup0, a :: st => some ⟨a :: a :: st, s.advice⟩
  | Operation.Dup1, a :: b :: st => some ⟨b :: a :: b :: st, s.advice⟩
  | Operation.Dup2, a :: b :: c :: st => some ⟨c :: a :: b :: c :: st, s.advice⟩
  | Operation.Dup3, a :: b :: c :: d :: st => some ⟨d :: a :: b :: c :: d :: st, s.advice⟩
  | Operation.MovUp3, a :: b :: c :: d :: st => some ⟨d :: a :: b :: c :: st, s.advice⟩
  | Operation.Add, b :: a :: st => some ⟨(a + b) % MODULUS :: st, s.advice⟩
  | Operation.Neg, a :: st => some ⟨(MODULUS - a % MODULUS) % MODULUS :: st, s.advice⟩
  | Operation.Eq, b :: a :: st => some ⟨(if a = b then 1 else 0) :: st, s.advice⟩
  | Operation.Eqz, a :: st => some ⟨(if a = 0 then 1 else 0) :: st, s.advice⟩
  | Operation.Not, a :: st => if a ≤ 1 then some ⟨(1 - a) :: st, s.advice⟩ else none
  | Operation.And, b :: a :: st =>
    if a ≤ 1 ∧ b ≤ 1 then some ⟨(a * b) :: st, s.advice⟩ else none
  | Operation.Assert _, a :: st => if a = 1 then some ⟨st, s.advice⟩ else none
  | Operation.CSwap, c :: b :: a :: st =>
    if c = 1 then some ⟨a :: b :: st, s.advice⟩
    else if c = 0 then some ⟨b :: a :: st, s.advice⟩ else none
  | Operation.AdvPop, st =>
    match s.advice with
    | v :: adv => some ⟨v :: st, adv⟩
    | [] => none
  | Operation.U32split, a :: st =>
    some ⟨a / 2 ^ 32 :: a % 2 ^ 32 :: st, s.advice⟩
  | Operation.U32assert2 _, b :: a :: st =>
    if a < 2 ^ 32 ∧ b < 2 ^ 32 then some ⟨b :: a :: st, s.advice⟩ else none
  | Operation.U32add, b :: a :: st =>
    some ⟨(a + b) / 2 ^ 32 :: (a + b) % 2 ^ 32 :: st, s.advice⟩
  | Operation.U32sub, b :: a :: st =>
    some ⟨(if a < b then 1 else 0) :: (a + 2 ^ 32 - b) % 2 ^ 32 :: st, s.advice⟩
  | Operation.U32mul, b :: a :: st =>
    some ⟨(a * b) % 2 ^ 64 / 2 ^ 32 :: (a * b) % 2 ^ 64 % 2 ^ 32 :: st, s.advice⟩
  | Operation.U32div, b :: a :: st =>
    if b = 0 then none else some ⟨a % b :: a / b :: st, s.advice⟩
  | Operation.U32and, b :: a :: st =>
    some ⟨(a &&& b) % 2 ^ 32 :: st, s.advice⟩
  | Operation.Pow2, a :: st => some ⟨(2 ^ a) % MODULUS :: st, s.advice⟩
  | _, _ => none

/-- Modelled from the spec: running a compiled operation sequence in strict
order, aborting on the first fatal step. -/
def run : List Operation → VmState → Option VmState
  | [], s => some s
  | op :: ops, s => (execOp op s).bind (run ops)

theorem run_append (xs ys : List Operation) (s : VmState) :
    run (xs ++ ys) s = (run xs s).bind (run ys) := by
  induction xs generalizing s with
  | nil => simp [run]
  | cons op xs ih =>
    simp only [List.cons_append, run]
    cases execOp op s with
    | none => simp
    | some s' => simp [ih]

-- ==========================================================================
-- Rotation arithmetic
-- ==========================================================================

theorem rot_core (x u v : Nat) (huv : u * v = 2 ^ 32) (hu0 : 0 < u) :
    x * u % 2 ^ 32 + x * u / 2 ^ 32 = x % v * u + x / v := by
  have h1 : x * u % 2 ^ 32 = x % v * u := by
    rw [← huv, mul_comm u v, Nat.mul_mod_mul_right]
  have h2 : x * u / 2 ^ 32 = x / v := by
    rw [← huv, mul_comm u v, Nat.mul_div_mul_right x v hu0]
  rw [h1, h2]

theorem div_lt_of_lt_mul_pow (x u v : Nat) (hx : x < 2 ^ 32) (huv : u * v = 2 ^ 32)
    (hv0 : 0 < v) : x / v < u := by
  rw [Nat.div_lt_iff_lt_mul hv0]
  rw [← huv] at hx
  exact hx

theorem rot_val_lt (x u v : Nat) (hx : x < 2 ^ 32) (huv : u * v = 2 ^ 32)
    (hv0 : 0 < v) : x % v * u + x / v < 2 ^ 32 := by
  have hmv : x % v ≤ v - 1 := by
    have := Nat.mod_lt x hv0
    omega
  have h1 : x % v * u ≤ (v - 1) * u := Nat.mul_le_mul_right u hmv
  have h2 : x / v < u := div_lt_of_lt_mul_pow x u v hx huv hv0
  have h3 : (v - 1) * u = v * u - u := by rw [Nat.sub_mul, one_mul]
  have h4 : v * u = 2 ^ 32 := by rw [mul_comm]; exact huv
  have h5 : u ≤ v * u := Nat.le_mul_of_pos_left u hv0
  omega

theorem rot_roundtrip (x u v : Nat) (hx : x < 2 ^ 32) (huv : u * v = 2 ^ 32)
    (hu0 : 0 < u) (hv0 : 0 < v) :
    (x % v * u + x / v) % u * v + (x % v * u + x / v) / u = x := by
  have hdiv : x / v < u := div_lt_of_lt_mul_pow x u v hx huv hv0
  have hmod : (x % v * u + x / v) % u = x / v := by
    rw [Nat.add_comm, Nat.add_mul_mod_self_right, Nat.mod_eq_of_lt hdiv]
  have hdiv2 : (x % v * u + x / v) / u = x % v := by
    rw [Nat.add_comm, Nat.add_mul_div_right _ _ hu0, Nat.div_eq_of_lt hdiv, Nat.zero_add]
  rw [hmod, hdiv2, mul_comm]
  exact Nat.div_add_mod x v

theorem mul_add_block (x u : Nat) (st adv : List Felt) (hxu : x * u < 2 ^ 64)
    (hy : x * u % 2 ^ 32 + x * u / 2 ^ 32 < MODULUS) :
    run [Operation.Push u, Operation.U32mul, Operation.Add] ⟨x :: st, adv⟩ =
      some ⟨(x * u % 2 ^ 32 + x * u / 2 ^ 32) :: st, adv⟩ := by
  have hxu2 : x * u < 18446744073709551616 := by norm_num at hxu; exact hxu
  have hy2 : x * u % 4294967296 + x * u / 4294967296 < MODULUS := by
    norm_num at hy
    exact hy
  have hxu' : x * u % 18446744073709551616 = x * u := Nat.mod_eq_of_lt hxu2
  have hy' : (x * u % 4294967296 + x * u / 4294967296) % MODULUS =
      x * u % 4294967296 + x * u / 4294967296 := Nat.mod_eq_of_lt hy2
  simp [run, execOp, hxu', hy']

-- ==========================================================================
-- Claim C6
-- ==========================================================================

/-- Claim C6: for every 32-bit x and every rotation amount r below 32, executing
the block compiled for u32rotl with immediate r and then the block compiled for
u32rotr with immediate r, starting with x on top of the stack, leaves x back on
top of the stack. -/
theorem claim_C6 (x r : Nat) (st adv : List Felt) (hx : x < 2 ^ 32) (hr : r < 32) :
    run ((u32rotl [] (some r)).1 ++ (u32rotr [] (some r)).1) ⟨x :: st, adv⟩ =
      some ⟨x :: st, adv⟩ := by
  by_cases h0 : r = 0
  · subst h0
    simp [u32rotl, u32rotr, prepare_bitwise, run, execOp]
  · have hvp : validate_param r 1 MAX_U32_ROTATE_VALUE = none := by
      unfold validate_param MAX_U32_ROTATE_VALUE
      rw [if_pos]
      omega
    have hshl : (1 : Nat) <<< r = 2 ^ r := by
      rw [Nat.shiftLeft_eq, one_mul]
    have hshl2 : (1 : Nat) <<< (32 - r) = 2 ^ (32 - r) := by
      rw [Nat.shiftLeft_eq, one_mul]
    have hlt1 : (2 : Nat) ^ r < MODULUS := by
      calc (2 : Nat) ^ r ≤ 2 ^ 31 := Nat.pow_le_pow_right (by norm_num) (by omega)
      _ < MODULUS := by decide
    have hlt2 : (2 : Nat) ^ (32 - r) < MODULUS := by
      calc (2 : Nat) ^ (32 - r) ≤ 2 ^ 32 := Nat.pow_le_pow_right (by norm_num) (by omega)
      _ < MODULUS := two_pow_32_lt_MODULUS
    have hops_l : (u32rotl [] (some r)).1 =
        [Operation.Push (2 ^ r), Operation.U32mul, Operation.Add] := by
      simp [u32rotl, prepare_bitwise, hvp, h0, hshl, Felt.new_eq_of_lt hlt1]
    have hops_r : (u32rotr [] (some r)).1 =
        [Operation.Push (2 ^ (32 - r)), Operation.U32mul, Operation.Add] := by
      simp [u32rotr, hvp, h0, hshl2, Felt.new_eq_of_lt hlt2]
    set u : Nat := 2 ^ r with hu
    set v : Nat := 2 ^ (32 - r) with hv
    have huv : u * v = 2 ^ 32 := by
      rw [hu, hv, ← pow_add]
      congr 1
      omega
    have hu0 : 0 < u := Nat.pos_pow_of_pos r (by norm_num)
    have hv0 : 0 < v := Nat.pos_pow_of_pos _ (by norm_num)
    have hub : u ≤ 2 ^ 31 := by
      rw [hu]
      exact Nat.pow_le_pow_right (by norm_num) (by omega)
    have hvb : v ≤ 2 ^ 32 := by
      rw [hv]
      exact Nat.pow_le_pow_right (by norm_num) (by omega)
    rw [hops_l, hops_r, run_append]
    have hb1 : x * u < 2 ^ 64 := by
      calc x * u ≤ x * 2 ^ 31 := Nat.mul_le_mul_left x hub
      _ < 2 ^ 32 * 2 ^ 31 := by
        apply Nat.mul_lt_mul_of_lt_of_le hx (le_refl _)
        norm_num
      _ < 2 ^ 64 := by norm_num
    have hy_eq : x * u % 2 ^ 32 + x * u / 2 ^ 32 = x % v * u + x / v := rot_core x u v huv hu0
    have hy_lt : x % v * u + x / v < 2 ^ 32 := rot_val_lt x u v hx huv hv0
    have hy_mod : x * u % 2 ^ 32 + x * u / 2 ^ 32 < MODULUS := by
      rw [hy_eq]
      exact lt_trans hy_lt two_pow_32_lt_MODULUS
    rw [mul_add_block x u st adv hb1 hy_mod]
    simp only [Option.some_bind]
    set y : Nat := x * u % 2 ^ 32 + x * u / 2 ^ 32 with hy_def
    have hy_val : y = x % v * u + x / v := hy_eq
    have hy32 : y < 2 ^ 32 := by rw [hy_val]; exact hy_lt
    have hb2 : y * v < 2 ^ 64 := by
      calc y * v ≤ y * 2 ^ 32 := Nat.mul_le_mul_left y hvb
      _ < 2 ^ 32 * 2 ^ 32 := by
        apply Nat.mul_lt_mul_of_lt_of_le hy32 (le_refl _)
        norm_num
      _ ≤ 2 ^ 64 := by norm_num
    have hvu : v * u = 2 ^ 32 := by rw [mul_comm]; exact huv
    have hz_eq : y * v % 2 ^ 32 + y * v / 2 ^ 32 = y % u * v + y / u := rot_core y v u hvu hv0
    have hz_x : y % u * v + y / u = x := by
      rw [hy_val]
      exact rot_roundtrip x u v hx huv hu0 hv0
    have hz_mod : y * v % 2 ^ 32 + y * v / 2 ^ 32 < MODULUS := by
      rw [hz_eq, hz_x]
      exact lt_trans hx two_pow_32_lt_MODULUS
    rw [mul_add_block y v st adv hb2 hz_mod, hz_eq, hz_x]

theorem claim_C6_witness :
    (2893400717 : Nat) < 2 ^ 32 ∧ (13 : Nat) < 32 ∧
    run ((u32rotl [] (some 13)).1 ++ (u32rotr [] (some 13)).1)
      ⟨[2893400717], []⟩ = some ⟨[2893400717], []⟩ :=
  ⟨by decide, by decide, claim_C6 2893400717 13 [] [] (by decide) (by decide)⟩

-- ==========================================================================
-- Count-leading/trailing-zero lowering (u32_ops.rs) and self-verification
-- ==========================================================================

/-- Appends relevant operations to the span block for the correctness check of
the Clz instruction: duplicate the claimed count, raise two to it, build the
bit mask (2^32 - 1) / 2^clz, AND it with the operand and assert equality with
the operand. -/
def calculate_clz (span : List Operation) : List Operation :=
  span ++ [Operation.Swap, Operation.Dup1] ++ [Operation.Pow2] ++
    [Operation.Push (Felt.new (2 ^ 32 - 1)), Operation.Swap, Operation.U32div,
     Operation.Drop, Operation.Dup1, Operation.U32and, Operation.Eq,
     Operation.Assert 0]

/-- Appends relevant operations to the span block for the correctness check of
the Ctz instruction: the bit mask is built as 2^32 - 2^ctz via negate-and-add. -/
def calculate_ctz (span : List Operation) : List Operation :=
  span ++ [Operation.Swap, Operation.Dup1] ++ [Operation.Pow2] ++
    [Operation.Push (Felt.new (2 ^ 32)), Operation.Swap, Operation.Neg,
     Operation.Add, Operation.Dup1, Operation.U32and, Operation.Eq,
     Operation.Assert 0]

/-- Translates u32clz: pop the nondeterministic count from the advice stack and
self-verify it.  The advice-injector decorator of the source is a decorator, not
a primitive operation, and is omitted from the operation sequence. -/
def u32clz (span : List Operation) : List Operation :=
  calculate_clz (span ++ [Operation.AdvPop])

/-- Translates u32ctz: pop the nondeterministic count from the advice stack and
self-verify it. -/
def u32ctz (span : List Operation) : List Operation :=
  calculate_ctz (span ++ [Operation.AdvPop])

/-- Translates u32clo: pop the count, replace the operand by its bitwise
complement via negate-then-add-max, and run the clz check. -/
def u32clo (span : List Operation) : List Operation :=
  calculate_clz (span ++ [Operation.AdvPop, Operation.Swap, Operation.Neg,
    Operation.Push (Felt.new (2 ^ 32 - 1)), Operation.Add, Operation.Swap])

/-- Translates u32cto: pop the count, replace the operand by its bitwise
complement via negate-then-add-max, and run the ctz check. -/
def u32cto (span : List Operation) : List Operation :=
  calculate_ctz (span ++ [Operation.AdvPop, Operation.Swap, Operation.Neg,
    Operation.Push (Felt.new (2 ^ 32 - 1)), Operation.Add, Operation.Swap])

/-- Binary length of a natural number, with explicit fuel. -/
def bitLen : Nat → Nat → Nat
  | 0, _ => 0
  | fuel + 1, n => if n = 0 then 0 else bitLen fuel (n / 2) + 1

/-- Number of leading zeros of a 32-bit value. -/
def clz32 (n : Nat) : Nat := 32 - bitLen 32 n

/-- Number of trailing zeros, with explicit fuel. -/
def ctzAux : Nat → Nat → Nat
  | 0, _ => 0
  | fuel + 1, n => if n % 2 = 1 then 0 else ctzAux fuel (n / 2) + 1

/-- Number of trailing zeros of a 32-bit value. -/
def ctz32 (n : Nat) : Nat := ctzAux 32 n

/-- Number of leading ones of a 32-bit value: leading zeros of its complement. -/
def clo32 (n : Nat) : Nat := clz32 (2 ^ 32 - 1 - n)

/-- Number of trailing ones of a 32-bit value: trailing zeros of its complement. -/
def cto32 (n : Nat) : Nat := ctz32 (2 ^ 32 - 1 - n)

theorem bitLen_le_iff : ∀ (fuel n k : Nat), n < 2 ^ fuel →
    (bitLen fuel n ≤ k ↔ n < 2 ^ k) := by
  intro fuel
  induction fuel with
  | zero =>
    intro n k h
    have hn : n = 0 := by
      simp only [pow_zero] at h
      omega
    subst hn
    simp [bitLen, Nat.pos_pow_of_pos]
  | succ fuel ih =>
    intro n k h
    by_cases hn : n = 0
    · subst hn
      simp [bitLen, Nat.pos_pow_of_pos]
    · simp only [bitLen, if_neg hn]
      cases k with
      | zero =>
        simp only [pow_zero]
        constructor
        · intro hk
          omega
        · intro hk
          omega
      | succ k =>
        have hps : (2 : Nat) ^ (fuel + 1) = 2 * 2 ^ fuel := by
          rw [pow_succ]
          ring
        have h2 : n / 2 < 2 ^ fuel := by omega
        have hih := ih (n / 2) k h2
        have hpk : (2 : Nat) ^ (k + 1) = 2 * 2 ^ k := by
          rw [pow_succ]
          ring
        omega

theorem bitLen32_le (n : Nat) (hn : n < 2 ^ 32) : bitLen 32 n ≤ 32 :=
  (bitLen_le_iff 32 n 32 hn).2 hn

theorem clz_le_iff (n c : Nat) (hn : n < 2 ^ 32) (hc : c ≤ 32) :
    c ≤ clz32 n ↔ n < 2 ^ (32 - c) := by
  unfold clz32
  have hb := bitLen32_le n hn
  have hiff := bitLen_le_iff 32 n (32 - c) hn
  omega

theorem ctzAux_iff : ∀ (fuel n c : Nat), n < 2 ^ fuel → c ≤ fuel →
    (n % 2 ^ c = 0 ↔ c ≤ ctzAux fuel n) := by
  intro fuel
  induction fuel with
  | zero =>
    intro n c h hc
    have hn : n = 0 := by
      simp only [pow_zero] at h
      omega
    have hc0 : c = 0 := by omega
    subst hn
    subst hc0
    simp [ctzAux]
  | succ fuel ih =>
    intro n c h hc
    by_cases hodd : n % 2 = 1
    · simp only [ctzAux, if_pos hodd]
      constructor
      · intro hmod
        by_contra hc0
        have hc1 : 1 ≤ c := by omega
        have hdvd : (2 : Nat) ∣ 2 ^ c := dvd_pow_self 2 (by omega)
        have := Nat.mod_mod_of_dvd n hdvd
        omega
      · intro hc0
        have : c = 0 := by omega
        subst this
        simp [Nat.mod_one]
    · have heven : n % 2 = 0 := by omega
      simp only [ctzAux, if_neg hodd]
      cases c with
      | zero => simp [Nat.mod_one]
      | succ c =>
        have hps : (2 : Nat) ^ (fuel + 1) = 2 * 2 ^ fuel := by
          rw [pow_succ]
          ring
        have h2 : n / 2 < 2 ^ fuel := by omega
        have hcf : c ≤ fuel := by omega
        have ihh := ih (n / 2) c h2 hcf
        have key : n % 2 ^ (c + 1) = 2 * (n / 2 % 2 ^ c) := by
          have hps2 : (2 : Nat) ^ (c + 1) = 2 * 2 ^ c := by
            rw [pow_succ]
            ring
          have hne : n = 2 * (n / 2) := by omega
          calc n % 2 ^ (c + 1) = 2 * (n / 2) % (2 * 2 ^ c) := by rw [← hne, hps2]
          _ = 2 * (n / 2 % 2 ^ c) := Nat.mul_mod_mul_left 2 _ _
        omega

theorem ctz_le_iff (n c : Nat) (hn : n < 2 ^ 32) (hc : c ≤ 32) :
    c ≤ ctz32 n ↔ n % 2 ^ c = 0 :=
  (ctzAux_iff 32 n c hn hc).symm

theorem all_ones_div_pow (c : Nat) (hc : c ≤ 32) :
    (2 ^ 32 - 1) / 2 ^ c = 2 ^ (32 - c) - 1 := by
  have hsplit : (2 : Nat) ^ 32 = 2 ^ (32 - c) * 2 ^ c := by
    rw [← pow_add]
    congr 1
    omega
  have hB : (1 : Nat) ≤ 2 ^ c := Nat.one_le_two_pow
  have hA : (1 : Nat) ≤ 2 ^ (32 - c) := Nat.one_le_two_pow
  have hAB : (2 : Nat) ^ c ≤ 2 ^ (32 - c) * 2 ^ c :=
    Nat.le_mul_of_pos_left _ (by omega)
  have hsub : (2 : Nat) ^ (32 - c) * 2 ^ c - 1 =
      (2 ^ (32 - c) - 1) * 2 ^ c + (2 ^ c - 1) := by
    rw [Nat.sub_mul, one_mul]
    omega
  rw [hsplit, hsub, Nat.add_comm, Nat.add_mul_div_right _ _ (by omega : 0 < 2 ^ c),
    Nat.div_eq_of_lt (by omega), Nat.zero_add]

theorem and_mask_eq_iff_lt (n k : Nat) :
    (n &&& (2 ^ k - 1) = n ↔ n < 2 ^ k) := by
  rw [Nat.and_pow_two_sub_one_eq_mod]
  constructor
  · intro h
    rw [← h]
    exact Nat.mod_lt _ (Nat.pos_pow_of_pos k (by norm_num))
  · exact Nat.mod_eq_of_lt

theorem land_mul_pow (n k m : Nat) : n &&& 2 ^ k * m = 2 ^ k * (n >>> k &&& m) := by
  apply Nat.eq_of_testBit_eq
  intro j
  rw [Nat.testBit_and, Nat.testBit_mul_pow_two, Nat.testBit_mul_pow_two]
  rcases Nat.lt_or_ge j k with hj | hj
  · simp [Nat.not_le_of_lt hj]
  · have hkj : k + (j - k) = j := by omega
    simp [hj, Nat.testBit_and, Nat.testBit_shiftRight, hkj, Bool.and_left_comm,
      Bool.and_comm, Bool.and_assoc]

theorem pow_sub_pow_eq (c : Nat) (hc : c ≤ 32) :
    2 ^ 32 - 2 ^ c = 2 ^ c * (2 ^ (32 - c) - 1) := by
  have h1 : 2 ^ c * (2 ^ (32 - c) - 1) + 2 ^ c = 2 ^ c * 2 ^ (32 - c) := by
    rw [← Nat.mul_succ]
    congr 1
    have : (1 : Nat) ≤ 2 ^ (32 - c) := Nat.one_le_two_pow
    omega
  have h2 : (2 : Nat) ^ c * 2 ^ (32 - c) = 2 ^ 32 := by
    rw [← pow_add]
    congr 1
    omega
  have h3 : (2 : Nat) ^ c ≤ 2 ^ 32 := Nat.pow_le_pow_right (by norm_num) hc
  omega

theorem and_high_mask_iff (n c : Nat) (hn : n < 2 ^ 32) (hc : c ≤ 32) :
    (n &&& (2 ^ 32 - 2 ^ c) = n ↔ n % 2 ^ c = 0) := by
  rw [pow_sub_pow_eq c hc, land_mul_pow, Nat.and_pow_two_sub_one_eq_mod,
    Nat.shiftRight_eq_div_pow]
  have hdiv : n / 2 ^ c < 2 ^ (32 - c) := by
    rw [Nat.div_lt_iff_lt_mul (Nat.pos_pow_of_pos c (by norm_num))]
    calc n < 2 ^ 32 := hn
    _ = 2 ^ (32 - c) * 2 ^ c := by
      rw [← pow_add]
      congr 1
      omega
  rw [Nat.mod_eq_of_lt hdiv]
  have hdm := Nat.div_add_mod n (2 ^ c)
  omega

set_option maxHeartbeats 1000000 in
theorem clz_check_run (n c : Nat) (st adv : List Felt) (hn : n < 2 ^ 32) (hc : c ≤ 32) :
    run (calculate_clz []) ⟨c :: n :: st, adv⟩ =
      if (2 ^ (32 - c) - 1) &&& n = n then some ⟨c :: st, adv⟩ else none := by
  have hpc : (2 : Nat) ^ c % MODULUS = 2 ^ c := Nat.mod_eq_of_lt
    (lt_of_le_of_lt (Nat.pow_le_pow_right (by norm_num) hc) two_pow_32_lt_MODULUS)
  have hM : Felt.new 4294967295 = 4294967295 := by decide
  have hdiv : (4294967295 : Nat) / 2 ^ c = 2 ^ (32 - c) - 1 := by
    have := all_ones_div_pow c hc
    norm_num at this
    exact this
  have hc0 : (2 : Nat) ^ c ≠ 0 := by positivity
  have hlt1 : (2 ^ (32 - c) - 1) &&& n < 4294967296 := by
    have := Nat.and_lt_two_pow (2 ^ (32 - c) - 1) hn
    norm_num at this
    exact this
  have hmask : ((2 ^ (32 - c) - 1) &&& n) % 4294967296 = (2 ^ (32 - c) - 1) &&& n :=
    Nat.mod_eq_of_lt hlt1
  have hnn : n % 4294967296 = n := by
    apply Nat.mod_eq_of_lt
    norm_num at hn
    exact hn
  by_cases hm : (2 ^ (32 - c) - 1) &&& n = n
  · rw [if_pos hm]
    simp [calculate_clz, run, execOp, hpc, hM, hdiv, hc0, hmask, hm, hnn]
  · rw [if_neg hm]
    have hm' : ¬n = (2 ^ (32 - c) - 1) &&& n := fun h => hm h.symm
    simp [calculate_clz, run, execOp, hpc, hM, hdiv, hc0, hmask, hm']

set_option maxHeartbeats 1000000 in
theorem ctz_check_run (n c : Nat) (st adv : List Felt) (hn : n < 2 ^ 32) (hc : c ≤ 32) :
    run (calculate_ctz []) ⟨c :: n :: st, adv⟩ =
      if (4294967296 - 2 ^ c) &&& n = n then some ⟨c :: st, adv⟩ else none := by
  have hm32 := MODULUS_eq
  have hc32 : (2 : Nat) ^ c ≤ 4294967296 := by
    have := Nat.pow_le_pow_right (show 1 ≤ 2 by norm_num) hc
    norm_num at this
    exact this
  have hpc : (2 : Nat) ^ c % MODULUS = 2 ^ c := Nat.mod_eq_of_lt (by omega)
  have hM : Felt.new 4294967296 = 4294967296 := by decide
  have hc0 : (0 : Nat) < 2 ^ c := Nat.pos_pow_of_pos c (by norm_num)
  have hneg : (MODULUS - 2 ^ c % MODULUS) % MODULUS = MODULUS - 2 ^ c := by
    rw [hpc]
    exact Nat.mod_eq_of_lt (by omega)
  have hadd : (4294967296 + (MODULUS - 2 ^ c)) % MODULUS = 4294967296 - 2 ^ c := by
    have h1 : 4294967296 + (MODULUS - 2 ^ c) = MODULUS + (4294967296 - 2 ^ c) := by
      omega
    rw [h1, Nat.add_mod_left]
    exact Nat.mod_eq_of_lt (by omega)
  have hlt1 : (4294967296 - 2 ^ c) &&& n < 4294967296 := by
    have := Nat.and_lt_two_pow (4294967296 - 2 ^ c) hn
    norm_num at this
    exact this
  have hmask : ((4294967296 - 2 ^ c) &&& n) % 4294967296 = (4294967296 - 2 ^ c) &&& n :=
    Nat.mod_eq_of_lt hlt1
  have hnn : n % 4294967296 = n := by
    apply Nat.mod_eq_of_lt
    norm_num at hn
    exact hn
  by_cases hm : (4294967296 - 2 ^ c) &&& n = n
  · rw [if_pos hm]
    simp [calculate_ctz, run, execOp, hpc, hM, hneg, hadd, hmask, hm, hnn]
  · rw [if_neg hm]
    have hm' : ¬n = (4294967296 - 2 ^ c) &&& n := fun h => hm h.symm
    simp [calculate_ctz, run, execOp, hpc, hM, hneg, hadd, hmask, hm']

set_option maxHeartbeats 1000000 in
theorem complement_prefix_run (n c : Nat) (st adv : List Felt) (hn : n < 2 ^ 32) :
    run [Operation.AdvPop, Operation.Swap, Operation.Neg,
      Operation.Push (Felt.new (2 ^ 32 - 1)), Operation.Add, Operation.Swap]
      ⟨n :: st, c :: adv⟩ = some ⟨c :: (2 ^ 32 - 1 - n) :: st, adv⟩ := by
  have hm32 := MODULUS_eq
  have hn' : n < 4294967296 := by
    norm_num at hn
    exact hn
  have hM : Felt.new 4294967295 = 4294967295 := by decide
  have hval : ((MODULUS - n % MODULUS) % MODULUS + 4294967295) % MODULUS =
      4294967295 - n := by
    have hnm : n % MODULUS = n := Nat.mod_eq_of_lt (by omega)
    rw [hnm]
    rcases Nat.eq_zero_or_pos n with h0 | h0
    · subst h0
      rw [Nat.sub_zero, Nat.mod_self, Nat.zero_add,
        Nat.mod_eq_of_lt (show (4294967295 : Nat) < MODULUS by omega)]
    · rw [Nat.mod_eq_of_lt (show MODULUS - n < MODULUS by omega)]
      have h2 : MODULUS - n + 4294967295 = MODULUS + (4294967295 - n) := by omega
      rw [h2, Nat.add_mod_left]
      exact Nat.mod_eq_of_lt (by omega)
  simp [run, execOp, hM, hval]

-- ==========================================================================
-- Claim C2
-- ==========================================================================

/-- Claim C2, counterexample: for operand 1 the true leading-zero count is 31,
yet the self-verification sequence of u32clz accepts the wrong claimed count 0
supplied as the advice value, so the assertion does not fail for every claimed
count other than the true one. -/
theorem claim_C2_counterexample :
    clz32 1 = 31 ∧ (0 : Nat) ≠ 31 ∧
    run (u32clz []) ⟨[1], [0]⟩ = some ⟨[0], []⟩ := by
  refine ⟨by decide, by decide, by decide⟩

/-- Claim C2, amended: for every 32-bit operand n and claimed count c at most 32
supplied as the advice value, the self-verification sequence of u32clz, u32ctz,
u32clo and u32cto passes exactly when c is at most the true count (leading
zeros, trailing zeros, leading ones, trailing ones respectively); in particular
it passes at the true count and fails for every larger claimed count, but it
also accepts every undercount. -/
theorem claim_C2_amended (n c : Nat) (st adv : List Felt) (hn : n < 2 ^ 32)
    (hc : c ≤ 32) :
    (run (u32clz []) ⟨n :: st, c :: adv⟩ =
      if c ≤ clz32 n then some ⟨c :: st, adv⟩ else none) ∧
    (run (u32ctz []) ⟨n :: st, c :: adv⟩ =
      if c ≤ ctz32 n then some ⟨c :: st, adv⟩ else none) ∧
    (run (u32clo []) ⟨n :: st, c :: adv⟩ =
      if c ≤ clo32 n then some ⟨c :: st, adv⟩ else none) ∧
    (run (u32cto []) ⟨n :: st, c :: adv⟩ =
      if c ≤ cto32 n then some ⟨c :: st, adv⟩ else none) := by
  have hcomp : 2 ^ 32 - 1 - n < 2 ^ 32 := by omega
  have hclz_iff : ∀ m : Nat, m < 2 ^ 32 →
      (((2 ^ (32 - c) - 1) &&& m = m) ↔ (c ≤ clz32 m)) := by
    intro m hm
    rw [Nat.and_comm, and_mask_eq_iff_lt]
    exact (clz_le_iff m c hm hc).symm
  have hctz_iff : ∀ m : Nat, m < 2 ^ 32 →
      (((4294967296 - 2 ^ c) &&& m = m) ↔ (c ≤ ctz32 m)) := by
    intro m hm
    have h1 := and_high_mask_iff m c hm hc
    norm_num at h1
    rw [Nat.and_comm, h1]
    exact (ctz_le_iff m c hm hc).symm
  refine ⟨?_, ?_, ?_, ?_⟩
  · have hsplit : u32clz [] = [Operation.AdvPop] ++ calculate_clz [] := by
      simp [u32clz, calculate_clz]
    rw [hsplit, run_append,
      show run [Operation.AdvPop] ⟨n :: st, c :: adv⟩ = some ⟨c :: n :: st, adv⟩ from rfl,
      Option.some_bind, clz_check_run n c st adv hn hc]
    exact if_congr (hclz_iff n hn) rfl rfl
  · have hsplit : u32ctz [] = [Operation.AdvPop] ++ calculate_ctz [] := by
      simp [u32ctz, calculate_ctz]
    rw [hsplit, run_append,
      show run [Operation.AdvPop] ⟨n :: st, c :: adv⟩ = some ⟨c :: n :: st, adv⟩ from rfl,
      Option.some_bind, ctz_check_run n c st adv hn hc]
    exact if_congr (hctz_iff n hn) rfl rfl
  · have hsplit : u32clo [] = [Operation.AdvPop, Operation.Swap, Operation.Neg,
        Operation.Push (Felt.new (2 ^ 32 - 1)), Operation.Add, Operation.Swap] ++
        calculate_clz [] := by
      simp [u32clo, calculate_clz]
    rw [hsplit, run_append, complement_prefix_run n c st adv hn, Option.some_bind,
      clz_check_run (2 ^ 32 - 1 - n) c st adv hcomp hc]
    exact if_congr (hclz_iff _ hcomp) rfl rfl
  · have hsplit : u32cto [] = [Operation.AdvPop, Operation.Swap, Operation.Neg,
        Operation.Push (Felt.new (2 ^ 32 - 1)), Operation.Add, Operation.Swap] ++
        calculate_ctz [] := by
      simp [u32cto, calculate_ctz]
    rw [hsplit, run_append, complement_prefix_run n c st adv hn, Option.some_bind,
      ctz_check_run (2 ^ 32 - 1 - n) c st adv hcomp hc]
    exact if_congr (hctz_iff _ hcomp) rfl rfl

theorem claim_C2_amended_witness :
    (11 : Nat) < 2 ^ 32 ∧ (28 : Nat) ≤ 32 ∧
    ((run (u32clz []) ⟨[11], [28]⟩ =
      if 28 ≤ clz32 11 then some ⟨[28], []⟩ else none) ∧
     (run (u32ctz []) ⟨[11], [28]⟩ =
      if 28 ≤ ctz32 11 then some ⟨[28], []⟩ else none) ∧
     (run (u32clo []) ⟨[11], [28]⟩ =
      if 28 ≤ clo32 11 then some ⟨[28], []⟩ else none) ∧
     (run (u32cto []) ⟨[11], [28]⟩ =
      if 28 ≤ cto32 11 then some ⟨[28], []⟩ else none)) :=
  ⟨by decide, by decide, claim_C2_amended 11 28 [] [] (by decide) (by decide)⟩

-- ==========================================================================
-- Verifier entry point (verifier/src/lib.rs)
-- ==========================================================================

/-- Modelled from the spec: an opaque rejection reported by the underlying
proof system (winterfell::VerifierError). -/
structure VerifierError where
  code : Nat
deriving DecidableEq

/-- Modelled from the spec: an opaque proof object. -/
structure StarkProof where
  data : Nat

/-- Modelled from the spec: a program commitment digest. -/
structure Digest where
  val : Nat

/-- Modelled from the spec: the ordered stack inputs, given in push order. -/
structure StackInputs where
  values : List Felt

/-- Modelled from the spec: the program outputs, with stack outputs in pop
order. -/
structure ProgramOutputs where
  stack : List Felt

/-- Modelled from the spec: the public inputs assembled by the verifier from the
program hash, the stack inputs and the program outputs. -/
structure PublicInputs where
  program_hash : Digest
  stack_inputs : StackInputs
  outputs : ProgramOutputs

/-- The error type of the verifier entry point. -/
inductive VerificationError where
  | VerifierError : VerifierError → VerificationError
  | InputNotFieldElement : Nat → VerificationError
  | OutputNotFieldElement : Nat → VerificationError

/-- Returns ok if the specified program was executed correctly against the
specified inputs and outputs: builds the public inputs and delegates to the
underlying proof system, mapping its rejection into VerifierError.  The
underlying winterfell verifier is external and passed as a parameter. -/
def verify (winterfell_verify : StarkProof → PublicInputs → Except VerifierError Unit)
    (program_hash : Digest) (stack_inputs : StackInputs) (outputs : ProgramOutputs)
    (proof : StarkProof) : Except VerificationError Unit :=
  (winterfell_verify proof ⟨program_hash, stack_inputs, outputs⟩).mapError
    VerificationError.VerifierError

/-- The input-not-a-field-element error kind is a possible outcome of some call
to the verifier entry point. -/
def inputErrorReachable : Prop :=
  ∃ (wv : StarkProof → PublicInputs → Except VerifierError Unit) (h : Digest)
    (si : StackInputs) (o : ProgramOutputs) (pr : StarkProof) (v : Nat),
    verify wv h si o pr = Except.error (VerificationError.InputNotFieldElement v)

theorem verify_never_input_error : ¬inputErrorReachable := by
  rintro ⟨wv, h, si, o, pr, v, heq⟩
  unfold verify at heq
  cases hw : wv pr ⟨h, si, o⟩ with
  | ok u => rw [hw] at heq; simp [Except.mapError] at heq
  | error e => rw [hw] at heq; simp [Except.mapError] at heq

-- ==========================================================================
-- Claim C9
-- ==========================================================================

/-- Claim C9, counterexample: the claim that each of the three error kinds is a
possible outcome of the verify call is false: no call to verify ever returns the
input-not-a-field-element error, since the body only maps the underlying
rejection into the VerifierError kind. -/
theorem claim_C9_counterexample : ¬inputErrorReachable :=
  verify_never_input_error

/-- Claim C9, amended: the verifier entry point returns success or an error, and
the only error kind verify itself produces is the underlying proof-system
rejection; both success and rejection are realizable outcomes, while the
input-not-a-field-element and output-not-a-field-element kinds, though present
in the error type, are never returned by verify. -/
theorem claim_C9_amended :
    (∀ (wv : StarkProof → PublicInputs → Except VerifierError Unit) (h : Digest)
      (si : StackInputs) (o : ProgramOutputs) (pr : StarkProof),
      verify wv h si o pr = Except.ok () ∨
      ∃ e, verify wv h si o pr = Except.error (VerificationError.VerifierError e)) ∧
    (∃ (wv : StarkProof → PublicInputs → Except VerifierError Unit) (h : Digest)
      (si : StackInputs) (o : ProgramOutputs) (pr : StarkProof),
      verify wv h si o pr = Except.ok ()) ∧
    (∃ (wv : StarkProof → PublicInputs → Except VerifierError Unit) (h : Digest)
      (si : StackInputs) (o : ProgramOutputs) (pr : StarkProof) (e : VerifierError),
      verify wv h si o pr = Except.error (VerificationError.VerifierError e)) ∧
    ¬inputErrorReachable := by
  refine ⟨?_, ?_, ?_, verify_never_input_error⟩
  · intro wv h si o pr
    unfold verify
    cases hw : wv pr ⟨h, si, o⟩ with
    | ok u => left; simp [Except.mapError]
    | error e => right; exact ⟨e, by simp [Except.mapError]⟩
  · exact ⟨fun _ _ => Except.ok (), ⟨0⟩, ⟨[]⟩, ⟨[]⟩, ⟨0⟩, rfl⟩
  · exact ⟨fun _ _ => Except.error ⟨0⟩, ⟨0⟩, ⟨[]⟩, ⟨[]⟩, ⟨0⟩, ⟨0⟩, rfl⟩

-- ==========================================================================
-- Population count lowering (u32_ops.rs)
-- ==========================================================================

/-- Translates u32popcnt assembly instructions to VM operations: the fixed
SWAR sequence combining 1-bit, 2-bit and 4-bit groups via shift-emulating
divisions, byte-summing by multiplication and a final shift right by 24. -/
def u32popcnt (span : List Operation) : List Operation :=
  span ++ [Operation.Dup0,
    Operation.Push (Felt.new (1 <<< 1)), Operation.U32div, Operation.Drop,
    Operation.Push (Felt.new 0x55555555), Operation.U32and,
    Operation.U32sub, Operation.Drop,
    Operation.Dup0,
    Operation.Push (Felt.new (1 <<< 2)), Operation.U32div, Operation.Drop,
    Operation.Push (Felt.new 0x33333333), Operation.U32and,
    Operation.Swap,
    Operation.Push (Felt.new 0x33333333), Operation.U32and,
    Operation.U32add, Operation.Drop,
    Operation.Dup0,
    Operation.Push (Felt.new (1 <<< 4)), Operation.U32div, Operation.Drop,
    Operation.U32add, Operation.Drop,
    Operation.Push (Felt.new 0x0F0F0F0F), Operation.U32and,
    Operation.Push (Felt.new 0x01010101), Operation.U32mul, Operation.Drop,
    Operation.Push (Felt.new (1 <<< 24)), Operation.U32div, Operation.Drop]

/-- First SWAR step on a value, abstracted over the repeating mask. -/
def sOne (M b : Nat) : Nat := b - (b / 2 &&& M)

/-- Second SWAR step on a value, abstracted over the repeating mask. -/
def sTwo (M b : Nat) : Nat := (b / 4 &&& M) + (b &&& M)

/-- Third SWAR step on a value, abstracted over the repeating mask. -/
def sThree (M b : Nat) : Nat := (b + b / 16) &&& M

/-- Number of set binary digits, with explicit fuel. -/
def pcAux : Nat → Nat → Nat
  | 0, _ => 0
  | fuel + 1, n => n % 2 + pcAux fuel (n / 2)

/-- SWAR pipeline on one byte. -/
def swarH8 (b : Nat) : Nat := sTwo 0x33 (sOne 0x55 b)

/-- Full SWAR byte result: the population count of the byte. -/
def swarG8 (b : Nat) : Nat := sThree 0x0F (swarH8 b)

set_option maxRecDepth 4000 in
theorem byteFacts : ∀ b, b < 256 →
    swarH8 b ≤ 0x44 ∧ swarH8 b % 16 ≤ 4 ∧ swarG8 b = pcAux 8 b ∧ swarG8 b ≤ 8 := by
  decide

theorem land_split (n A B C D : Nat) (hA : A < 2 ^ n) (hC : C < 2 ^ n) :
    (A + B * 2 ^ n) &&& (C + D * 2 ^ n) = (A &&& C) + (B &&& D) * 2 ^ n := by
  have e1 : A + B * 2 ^ n = 2 ^ n * B + A := by ring
  have e2 : C + D * 2 ^ n = 2 ^ n * D + C := by ring
  have e3 : (A &&& C) + (B &&& D) * 2 ^ n = 2 ^ n * (B &&& D) + (A &&& C) := by ring
  rw [e1, e2, e3]
  apply Nat.eq_of_testBit_eq
  intro j
  rw [Nat.testBit_and, Nat.testBit_mul_pow_two_add B hA j,
    Nat.testBit_mul_pow_two_add D hC j,
    Nat.testBit_mul_pow_two_add (B &&& D) (Nat.and_lt_two_pow A hC) j]
  rcases Nat.lt_or_ge j n with hj | hj
  · simp [hj, Nat.testBit_and]
  · simp [Nat.not_lt_of_le hj, Nat.testBit_and]

theorem mask_low (x m k : Nat) (hm : m < 2 ^ k) : x &&& m = x % 2 ^ k &&& m := by
  apply Nat.eq_of_testBit_eq
  intro j
  rw [Nat.testBit_and, Nat.testBit_and, Nat.testBit_mod_two_pow]
  rcases Nat.lt_or_ge j k with hj | hj
  · simp [hj]
  · have hmj : Nat.testBit m j = false := by
      apply Nat.testBit_lt_two_pow
      calc m < 2 ^ k := hm
      _ ≤ 2 ^ j := Nat.pow_le_pow_right (by norm_num) hj
    simp [hmj]

theorem add_high_and (x c k m : Nat) (hm : m < 2 ^ k) :
    (x + c * 2 ^ k) &&& m = x &&& m := by
  rw [mask_low _ m k hm, mask_low x m k hm, Nat.add_mul_mod_self_right]

theorem div_shift_split (n k lo hi : Nat) (hk : k ≤ n) :
    (lo + hi * 2 ^ n) / 2 ^ k =
      lo / 2 ^ k + hi % 2 ^ k * 2 ^ (n - k) + hi / 2 ^ k * 2 ^ n := by
  have h1 : (2 : Nat) ^ n = 2 ^ (n - k) * 2 ^ k := by
    rw [← pow_add]
    congr 1
    omega
  have h2 : lo + hi * 2 ^ n = lo + hi * 2 ^ (n - k) * 2 ^ k := by
    rw [h1]
    ring
  rw [h2, Nat.add_mul_div_right _ _ (Nat.pos_pow_of_pos k (by norm_num))]
  have h3 : hi * 2 ^ (n - k) = hi % 2 ^ k * 2 ^ (n - k) + hi / 2 ^ k * 2 ^ n := by
    conv_lhs => rw [← Nat.div_add_mod hi (2 ^ k)]
    rw [Nat.add_mul, h1]
    ring
  omega

theorem sOne_split (n M lo hi : Nat) (hn : 1 ≤ n) (hM : M < 2 ^ (n - 1))
    (hlo : lo < 2 ^ n) :
    sOne (M + M * 2 ^ n) (lo + hi * 2 ^ n) = sOne M lo + sOne M hi * 2 ^ n := by
  have hps : (2 : Nat) ^ n = 2 * 2 ^ (n - 1) := by
    rw [← pow_succ']
    congr 1
    omega
  have hd : (lo + hi * 2 ^ n) / 2 =
      lo / 2 + hi % 2 * 2 ^ (n - 1) + hi / 2 * 2 ^ n := by
    have := div_shift_split n 1 lo hi hn
    norm_num at this
    exact this
  have hA : lo / 2 + hi % 2 * 2 ^ (n - 1) < 2 ^ n := by
    have h1 : lo / 2 < 2 ^ (n - 1) := by omega
    have h2 : hi % 2 ≤ 1 := by omega
    have h3 : hi % 2 * 2 ^ (n - 1) ≤ 2 ^ (n - 1) := by
      calc hi % 2 * 2 ^ (n - 1) ≤ 1 * 2 ^ (n - 1) := Nat.mul_le_mul_right _ h2
      _ = 2 ^ (n - 1) := by ring
    omega
  have hMn : M < 2 ^ n := by
    calc M < 2 ^ (n - 1) := hM
    _ ≤ 2 ^ n := Nat.pow_le_pow_right (by norm_num) (by omega)
  unfold sOne
  rw [hd, land_split n _ _ M M hA hMn, add_high_and _ _ _ _ hM]
  have hu : lo / 2 &&& M ≤ lo := le_trans Nat.and_le_left (Nat.div_le_self lo 2)
  have hv : hi / 2 &&& M ≤ hi := le_trans Nat.and_le_left (Nat.div_le_self hi 2)
  have hm1 : (hi - (hi / 2 &&& M)) * 2 ^ n = hi * 2 ^ n - (hi / 2 &&& M) * 2 ^ n :=
    Nat.sub_mul _ _ _
  have hm2 : (hi / 2 &&& M) * 2 ^ n ≤ hi * 2 ^ n := Nat.mul_le_mul_right _ hv
  omega

theorem sTwo_split (n M lo hi : Nat) (hn : 2 ≤ n) (hM : M < 2 ^ (n - 2))
    (hlo : lo < 2 ^ n) :
    sTwo (M + M * 2 ^ n) (lo + hi * 2 ^ n) = sTwo M lo + sTwo M hi * 2 ^ n := by
  have hps : (2 : Nat) ^ n = 4 * 2 ^ (n - 2) := by
    have h4 : (4 : Nat) = 2 ^ 2 := by norm_num
    rw [h4, ← pow_add]
    congr 1
    omega
  have hd : (lo + hi * 2 ^ n) / 4 =
      lo / 4 + hi % 4 * 2 ^ (n - 2) + hi / 4 * 2 ^ n := by
    have := div_shift_split n 2 lo hi hn
    norm_num at this
    exact this
  have hA : lo / 4 + hi % 4 * 2 ^ (n - 2) < 2 ^ n := by
    have h1 : lo / 4 < 2 ^ (n - 2) := by omega
    have h2 : hi % 4 ≤ 3 := by omega
    have h3 : hi % 4 * 2 ^ (n - 2) ≤ 3 * 2 ^ (n - 2) := Nat.mul_le_mul_right _ h2
    omega
  have hMn : M < 2 ^ n := by
    calc M < 2 ^ (n - 2) := hM
    _ ≤ 2 ^ n := Nat.pow_le_pow_right (by norm_num) (by omega)
  unfold sTwo
  rw [hd, land_split n _ _ M M hA hMn, add_high_and _ _ _ _ hM,
    land_split n lo hi M M hlo hMn]
  ring

theorem sThree_split (n M lo hi : Nat) (hn : 4 ≤ n) (hM : M < 2 ^ (n - 4))
    (hA : lo + lo / 16 + hi % 16 * 2 ^ (n - 4) < 2 ^ n) :
    sThree (M + M * 2 ^ n) (lo + hi * 2 ^ n) = sThree M lo + sThree M hi * 2 ^ n := by
  have hd : (lo + hi * 2 ^ n) / 16 =
      lo / 16 + hi % 16 * 2 ^ (n - 4) + hi / 16 * 2 ^ n := by
    have := div_shift_split n 4 lo hi hn
    norm_num at this
    exact this
  have hMn : M < 2 ^ n := by
    calc M < 2 ^ (n - 4) := hM
    _ ≤ 2 ^ n := Nat.pow_le_pow_right (by norm_num) (by omega)
  unfold sThree
  rw [hd]
  have hsum : lo + hi * 2 ^ n + (lo / 16 + hi % 16 * 2 ^ (n - 4) + hi / 16 * 2 ^ n) =
      (lo + lo / 16 + hi % 16 * 2 ^ (n - 4)) + (hi + hi / 16) * 2 ^ n := by
    ring
  rw [hsum, land_split n _ _ M M hA hMn,
    add_high_and (lo + lo / 16) (hi % 16) (n - 4) M hM]

theorem pcAux_split : ∀ (k fuel lo hi : Nat), lo < 2 ^ k →
    pcAux (k + fuel) (lo + hi * 2 ^ k) = pcAux k lo + pcAux fuel hi := by
  intro k
  induction k with
  | zero =>
    intro fuel lo hi h
    have hlo : lo = 0 := by
      simp only [pow_zero] at h
      omega
    subst hlo
    simp [pcAux]
  | succ k ih =>
    intro fuel lo hi h
    have hidx : k + 1 + fuel = (k + fuel) + 1 := by omega
    rw [hidx]
    have hps : (2 : Nat) ^ (k + 1) = 2 * 2 ^ k := by
      rw [pow_succ]
      ring
    have hmod : (lo + hi * 2 ^ (k + 1)) % 2 = lo % 2 := by
      have : lo + hi * 2 ^ (k + 1) = lo + 2 * (hi * 2 ^ k) := by
        rw [hps]
        ring
      omega
    have hdiv : (lo + hi * 2 ^ (k + 1)) / 2 = lo / 2 + hi * 2 ^ k := by
      have : lo + hi * 2 ^ (k + 1) = lo + 2 * (hi * 2 ^ k) := by
        rw [hps]
        ring
      omega
    show (lo + hi * 2 ^ (k + 1)) % 2 + pcAux (k + fuel) ((lo + hi * 2 ^ (k + 1)) / 2) =
      (lo % 2 + pcAux k (lo / 2)) + pcAux fuel hi
    rw [hmod, hdiv, ih fuel (lo / 2) hi (by omega)]
    ring

/-- SWAR pipeline on one 16-bit half, first two steps. -/
def swarH16 (b : Nat) : Nat := sTwo 0x3333 (sOne 0x5555 b)

/-- SWAR pipeline on one 16-bit half, all three steps. -/
def swarG16 (b : Nat) : Nat := sThree 0x0F0F (swarH16 b)

theorem sOne16_split (lo hi : Nat) (hlo : lo < 2 ^ 8) :
    sOne 0x5555 (lo + hi * 2 ^ 8) = sOne 0x55 lo + sOne 0x55 hi * 2 ^ 8 := by
  rw [show (0x5555 : Nat) = 0x55 + 0x55 * 2 ^ 8 by norm_num]
  exact sOne_split 8 0x55 lo hi (by norm_num) (by norm_num) hlo

theorem swarH16_split (lo hi : Nat) (hlo : lo < 2 ^ 8) :
    swarH16 (lo + hi * 2 ^ 8) = swarH8 lo + swarH8 hi * 2 ^ 8 := by
  unfold swarH16 swarH8
  rw [sOne16_split lo hi hlo,
    show (0x3333 : Nat) = 0x33 + 0x33 * 2 ^ 8 by norm_num]
  exact sTwo_split 8 0x33 _ _ (by norm_num) (by norm_num)
    (lt_of_le_of_lt (Nat.sub_le _ _) hlo)

theorem swarG16_split (lo hi : Nat) (hlo : lo < 2 ^ 8) (hhi : hi < 2 ^ 8) :
    swarG16 (lo + hi * 2 ^ 8) = swarG8 lo + swarG8 hi * 2 ^ 8 := by
  unfold swarG16 swarG8
  rw [swarH16_split lo hi hlo,
    show (0x0F0F : Nat) = 0x0F + 0x0F * 2 ^ 8 by norm_num]
  apply sThree_split 8 0x0F _ _ (by norm_num) (by norm_num)
  have f1 := byteFacts lo (by norm_num at hlo; exact hlo)
  have f2 := byteFacts hi (by norm_num at hhi; exact hhi)
  norm_num
  omega

theorem swarH16_facts (b : Nat) (hb : b < 2 ^ 16) :
    swarH16 b = swarH8 (b % 256) + swarH8 (b / 256) * 2 ^ 8 ∧
    swarH16 b ≤ 0x4444 ∧ swarH16 b % 16 ≤ 4 ∧
    swarG16 b = pcAux 8 (b % 256) + pcAux 8 (b / 256) * 2 ^ 8 ∧
    pcAux 8 (b % 256) ≤ 8 ∧ pcAux 8 (b / 256) ≤ 8 ∧
    pcAux 16 b = pcAux 8 (b % 256) + pcAux 8 (b / 256) := by
  have hb' : b < 65536 := by norm_num at hb; exact hb
  have hdec : b = b % 256 + b / 256 * 2 ^ 8 := by norm_num; omega
  have hlo : b % 256 < 2 ^ 8 := by norm_num; omega
  have hhi : b / 256 < 2 ^ 8 := by norm_num; omega
  have f1 := byteFacts (b % 256) (by omega)
  have f2 := byteFacts (b / 256) (by omega)
  have hh : swarH16 b = swarH8 (b % 256) + swarH8 (b / 256) * 2 ^ 8 := by
    conv_lhs => rw [hdec]
    exact swarH16_split _ _ hlo
  have hg : swarG16 b = swarG8 (b % 256) + swarG8 (b / 256) * 2 ^ 8 := by
    conv_lhs => rw [hdec]
    exact swarG16_split _ _ hlo hhi
  have hpc : pcAux 16 b = pcAux 8 (b % 256) + pcAux 8 (b / 256) := by
    conv_lhs => rw [hdec]
    have := pcAux_split 8 8 (b % 256) (b / 256) hlo
    norm_num at this ⊢
    exact this
  refine ⟨hh, ?_, ?_, ?_, ?_, ?_, hpc⟩
  · have := f1.1
    have := f2.1
    norm_num
    omega
  · have := f1.1
    have := f1.2.1
    have := f2.1
    omega
  · rw [hg, f1.2.2.1, f2.2.2.1]
  · have := f1.2.2.1
    have := f1.2.2.2
    omega
  · have := f2.2.2.1
    have := f2.2.2.2
    omega

theorem step4_eq (c0 c1 c2 c3 : Nat) (h0 : c0 ≤ 8) (h1 : c1 ≤ 8) (h2 : c2 ≤ 8)
    (h3 : c3 ≤ 8) :
    (c0 + c1 * 2 ^ 8 + c2 * 2 ^ 16 + c3 * 2 ^ 24) * 0x01010101 % 2 ^ 32 / 2 ^ 24 =
      c0 + c1 + c2 + c3 := by
  have hT : (c0 + c1 * 2 ^ 8 + c2 * 2 ^ 16 + c3 * 2 ^ 24) * 0x01010101 =
      (c0 + (c0 + c1) * 2 ^ 8 + (c0 + c1 + c2) * 2 ^ 16 +
        (c0 + c1 + c2 + c3) * 2 ^ 24) +
      ((c1 + c2 + c3) + (c2 + c3) * 2 ^ 8 + c3 * 2 ^ 16) * 2 ^ 32 := by
    ring
  have hLow : c0 + (c0 + c1) * 2 ^ 8 + (c0 + c1 + c2) * 2 ^ 16 +
      (c0 + c1 + c2 + c3) * 2 ^ 24 < 2 ^ 32 := by
    norm_num
    omega
  rw [hT, Nat.add_mul_mod_self_right, Nat.mod_eq_of_lt hLow]
  have hsplit : c0 + (c0 + c1) * 2 ^ 8 + (c0 + c1 + c2) * 2 ^ 16 +
      (c0 + c1 + c2 + c3) * 2 ^ 24 =
      (c0 + (c0 + c1) * 2 ^ 8 + (c0 + c1 + c2) * 2 ^ 16) +
        (c0 + c1 + c2 + c3) * 2 ^ 24 := by
    ring
  have hsmall : c0 + (c0 + c1) * 2 ^ 8 + (c0 + c1 + c2) * 2 ^ 16 < 2 ^ 24 := by
    norm_num
    omega
  rw [hsplit, Nat.add_mul_div_right _ _ (show 0 < (2 : Nat) ^ 24 by norm_num),
    Nat.div_eq_of_lt hsmall, Nat.zero_add]

theorem swar_correct (x : Nat) (hx : x < 2 ^ 32) :
    sThree 0x0F0F0F0F (sTwo 0x33333333 (sOne 0x55555555 x)) * 0x01010101 % 2 ^ 32 /
      2 ^ 24 = pcAux 32 x := by
  obtain ⟨L, H, hL, hH, rfl⟩ :
      ∃ L H, L < 2 ^ 16 ∧ H < 2 ^ 16 ∧ x = L + H * 2 ^ 16 := by
    refine ⟨x % 65536, x / 65536, by norm_num; omega, ?_, by norm_num; omega⟩
    have : x < 4294967296 := by norm_num at hx; exact hx
    norm_num
    omega
  have e1 : sOne 0x55555555 (L + H * 2 ^ 16) = sOne 0x5555 L + sOne 0x5555 H * 2 ^ 16 := by
    rw [show (0x55555555 : Nat) = 0x5555 + 0x5555 * 2 ^ 16 by norm_num]
    exact sOne_split 16 0x5555 L H (by norm_num) (by norm_num) hL
  have hs1L : sOne 0x5555 L < 2 ^ 16 := lt_of_le_of_lt (Nat.sub_le _ _) hL
  have e2 : sTwo 0x33333333 (sOne 0x5555 L + sOne 0x5555 H * 2 ^ 16) =
      swarH16 L + swarH16 H * 2 ^ 16 := by
    rw [show (0x33333333 : Nat) = 0x3333 + 0x3333 * 2 ^ 16 by norm_num]
    exact sTwo_split 16 0x3333 _ _ (by norm_num) (by norm_num) hs1L
  obtain ⟨_, bL1, bL2, gL, gL0, gL1, pcL⟩ := swarH16_facts L hL
  obtain ⟨_, bH1, bH2, gH, gH0, gH1, pcH⟩ := swarH16_facts H hH
  have e3 : sThree 0x0F0F0F0F (swarH16 L + swarH16 H * 2 ^ 16) =
      swarG16 L + swarG16 H * 2 ^ 16 := by
    rw [show (0x0F0F0F0F : Nat) = 0x0F0F + 0x0F0F * 2 ^ 16 by norm_num]
    apply sThree_split 16 0x0F0F _ _ (by norm_num) (by norm_num)
    norm_num
    omega
  rw [e1, e2, e3, gL, gH]
  have e4 : pcAux 8 (L % 256) + pcAux 8 (L / 256) * 2 ^ 8 +
      (pcAux 8 (H % 256) + pcAux 8 (H / 256) * 2 ^ 8) * 2 ^ 16 =
      pcAux 8 (L % 256) + pcAux 8 (L / 256) * 2 ^ 8 + pcAux 8 (H % 256) * 2 ^ 16 +
        pcAux 8 (H / 256) * 2 ^ 24 := by
    ring
  rw [e4, step4_eq _ _ _ _ gL0 gL1 gH0 gH1]
  have e5 : pcAux 32 (L + H * 2 ^ 16) = pcAux 16 L + pcAux 16 H := by
    have := pcAux_split 16 16 L H hL
    norm_num at this ⊢
    exact this
  rw [e5, pcL, pcH]
  ring

/-- First quarter of the popcount sequence: i = i - ((i >> 1) & 0x55555555). -/
def popBlock1 : List Operation :=
  [Operation.Dup0, Operation.Push (Felt.new (1 <<< 1)), Operation.U32div,
   Operation.Drop, Operation.Push (Felt.new 0x55555555), Operation.U32and,
   Operation.U32sub, Operation.Drop]

/-- Second quarter: i = (i & 0x33333333) + ((i >> 2) & 0x33333333). -/
def popBlock2 : List Operation :=
  [Operation.Dup0, Operation.Push (Felt.new (1 <<< 2)), Operation.U32div,
   Operation.Drop, Operation.Push (Felt.new 0x33333333), Operation.U32and,
   Operation.Swap, Operation.Push (Felt.new 0x33333333), Operation.U32and,
   Operation.U32add, Operation.Drop]

/-- Third quarter: i = (i + (i >> 4)) & 0x0F0F0F0F. -/
def popBlock3 : List Operation :=
  [Operation.Dup0, Operation.Push (Felt.new (1 <<< 4)), Operation.U32div,
   Operation.Drop, Operation.U32add, Operation.Drop,
   Operation.Push (Felt.new 0x0F0F0F0F), Operation.U32and]

/-- Last quarter: return (i * 0x01010101) >> 24. -/
def popBlock4 : List Operation :=
  [Operation.Push (Felt.new 0x01010101), Operation.U32mul, Operation.Drop,
   Operation.Push (Felt.new (1 <<< 24)), Operation.U32div, Operation.Drop]

set_option maxHeartbeats 1000000 in
theorem popBlock1_run (x : Nat) (st adv : List Felt) (hx : x < 2 ^ 32) :
    run popBlock1 ⟨x :: st, adv⟩ = some ⟨sOne 0x55555555 x :: st, adv⟩ := by
  unfold sOne
  have hand : (x / 2 &&& 1431655765) % 4294967296 = x / 2 &&& 1431655765 :=
    Nat.mod_eq_of_lt (lt_of_le_of_lt Nat.and_le_right (by norm_num))
  have hle : x / 2 &&& 1431655765 ≤ x := le_trans Nat.and_le_left (Nat.div_le_self x 2)
  have hxl : x < 4294967296 := by norm_num at hx; exact hx
  have hsub : (x + 4294967296 - (x / 2 &&& 1431655765)) % 4294967296 =
      x - (x / 2 &&& 1431655765) := by
    omega
  simp [popBlock1, run, execOp, Felt.new, MODULUS, hand, hsub]

set_option maxHeartbeats 1000000 in
theorem popBlock2_run (i : Nat) (st adv : List Felt) :
    run popBlock2 ⟨i :: st, adv⟩ = some ⟨sTwo 0x33333333 i :: st, adv⟩ := by
  unfold sTwo
  have h1 : (i / 4 &&& 858993459) % 4294967296 = (i / 4 &&& 858993459) :=
    Nat.mod_eq_of_lt (lt_of_le_of_lt Nat.and_le_right (by norm_num))
  have h2 : (i &&& 858993459) % 4294967296 = (i &&& 858993459) :=
    Nat.mod_eq_of_lt (lt_of_le_of_lt Nat.and_le_right (by norm_num))
  have hb1 : (i / 4 &&& 858993459) ≤ 858993459 := Nat.and_le_right
  have hb2 : (i &&& 858993459) ≤ 858993459 := Nat.and_le_right
  have h3 : ((i / 4 &&& 858993459) + (i &&& 858993459)) % 4294967296 =
      (i / 4 &&& 858993459) + (i &&& 858993459) := Nat.mod_eq_of_lt (by omega)
  simp [popBlock2, run, execOp, Felt.new, MODULUS, h1, h2, h3]

set_option maxHeartbeats 1000000 in
theorem popBlock3_run (i : Nat) (st adv : List Felt) (hi : i + i / 16 < 2 ^ 32) :
    run popBlock3 ⟨i :: st, adv⟩ = some ⟨sThree 0x0F0F0F0F i :: st, adv⟩ := by
  unfold sThree
  have hi' : i + i / 16 < 4294967296 := by norm_num at hi; exact hi
  have h1 : (i + i / 16) % 4294967296 = i + i / 16 := Nat.mod_eq_of_lt hi'
  have h2 : ((i + i / 16) &&& 252645135) % 4294967296 = (i + i / 16) &&& 252645135 :=
    Nat.mod_eq_of_lt (lt_of_le_of_lt Nat.and_le_right (by norm_num))
  simp [popBlock3, run, execOp, Felt.new, MODULUS, h1, h2]

set_option maxHeartbeats 1000000 in
theorem popBlock4_run (i : Nat) (st adv : List Felt) (hi : i < 2 ^ 32) :
    run popBlock4 ⟨i :: st, adv⟩ =
      some ⟨i * 0x01010101 % 2 ^ 32 / 2 ^ 24 :: st, adv⟩ := by
  have hi' : i < 4294967296 := by norm_num at hi; exact hi
  have hm : i * 16843009 % 18446744073709551616 = i * 16843009 := by
    apply Nat.mod_eq_of_lt
    omega
  simp [popBlock4, run, execOp, Felt.new, MODULUS, hm]

theorem popcnt_run (x : Nat) (st adv : List Felt) (hx : x < 2 ^ 32) :
    run (u32popcnt []) ⟨x :: st, adv⟩ = some ⟨pcAux 32 x :: st, adv⟩ := by
  have hsplit : u32popcnt [] = popBlock1 ++ (popBlock2 ++ (popBlock3 ++ popBlock4)) :=
    rfl
  have hi2b : sTwo 0x33333333 (sOne 0x55555555 x) ≤ 1717986918 := by
    unfold sTwo
    have hb1 : (sOne 0x55555555 x / 4 &&& 858993459) ≤ 858993459 := Nat.and_le_right
    have hb2 : (sOne 0x55555555 x &&& 858993459) ≤ 858993459 := Nat.and_le_right
    omega
  have h3cond : sTwo 0x33333333 (sOne 0x55555555 x) +
      sTwo 0x33333333 (sOne 0x55555555 x) / 16 < 2 ^ 32 := by
    have := Nat.div_le_self (sTwo 0x33333333 (sOne 0x55555555 x)) 16
    norm_num
    omega
  have h4cond : sThree 0x0F0F0F0F (sTwo 0x33333333 (sOne 0x55555555 x)) < 2 ^ 32 := by
    unfold sThree
    exact lt_of_le_of_lt Nat.and_le_right (by norm_num)
  rw [hsplit, run_append, popBlock1_run x st adv hx, Option.some_bind, run_append,
    popBlock2_run _ st adv, Option.some_bind, run_append,
    popBlock3_run _ st adv h3cond, Option.some_bind, popBlock4_run _ st adv h4cond,
    swar_correct x hx]

-- ==========================================================================
-- Claim C7
-- ==========================================================================

/-- Claim C7: the u32popcnt lowering is one fixed 33-operation sequence
independent of the operand value, and executing it on any 32-bit x leaves the
number of set bits of x on top of the stack. -/
theorem claim_C7 (x : Nat) (st adv : List Felt) (hx : x < 2 ^ 32) :
    (u32popcnt []).length = 33 ∧
    (∀ span, u32popcnt span = span ++ u32popcnt []) ∧
    run (u32popcnt []) ⟨x :: st, adv⟩ = some ⟨pcAux 32 x :: st, adv⟩ :=
  ⟨by decide, fun _ => rfl, popcnt_run x st adv hx⟩

theorem claim_C7_witness :
    (4294967295 : Nat) < 2 ^ 32 ∧
    ((u32popcnt []).length = 33 ∧
     (∀ span, u32popcnt span = span ++ u32popcnt []) ∧
     run (u32popcnt []) ⟨[4294967295], []⟩ = some ⟨[pcAux 32 4294967295], []⟩) :=
  ⟨by decide, claim_C7 4294967295 [] [] (by decide)⟩
